import Mathlib

/-!
Shallow embedding of `create_project.py`: a scaffolding tool that reads a
JSON configuration and materializes a CMake project tree.  Paths are lists
of segments (mirroring `pathlib.Path`), the filesystem is an explicit state
of existing directories and files, and `main` is embedded as a function
from configuration and filesystem to an `Except` result that carries the
filesystem reached at the point of failure.
-/

namespace CreateProject

/-- A single-quote character, used inside generated and printed text. -/
def sq : String := String.mk [Char.ofNat 39]

/-- `containsSubstring s t` holds when `t` occurs contiguously inside `s`. -/
def containsSubstring (s t : String) : Prop := ∃ a b, s = a ++ t ++ b

/-- Boolean test that `pre` is a prefix of `s`, on the character list. -/
def strStartsWith (s pre : String) : Bool := pre.data.isPrefixOf s.data

/-- A filesystem path, as the list of its segments (mirroring `pathlib.Path`;
`p / q` is `p ++ [q]`). -/
abbrev Path := List String

/-- String rendering of a relative path, as `pathlib` prints it. -/
def Path.render (p : Path) : String := String.intercalate "/" p

/-- The modelled filesystem state: the existing directories, and the
existing regular files together with their contents.  The newest entry of
`files` for a path shadows older ones. -/
structure FS where
  dirs : List Path
  files : List (Path × String)
deriving DecidableEq, Repr

/-- The empty filesystem region the tool writes into. -/
def FS.empty : FS := ⟨[], []⟩

/-- `Path.exists()` in Python: the path is a directory or a regular file. -/
def FS.pathExists (fs : FS) (p : Path) : Bool :=
  fs.dirs.contains p || fs.files.any (fun e => e.1 == p)

/-- `Path.write_text`: create or overwrite the file at `p` with contents
`c`. -/
def FS.writeFile (fs : FS) (p : Path) (c : String) : FS :=
  { fs with files := (p, c) :: fs.files }

/-- Read the contents of the file at `p`, if present. -/
def FS.read (fs : FS) (p : Path) : Option String :=
  (fs.files.find? (fun e => e.1 == p)).map Prod.snd

/-- The two already-exists failures of the materializer: the explicit root
existence check in `main`, and an uncaught `FileExistsError` raised by a
`Path.mkdir()` call. -/
inductive RunError where
  | rootExists (p : Path)
  | mkdirExists (p : Path)
deriving DecidableEq, Repr

/-- `Path.mkdir()`: raises `FileExistsError` when the path exists, else
creates the directory.  The error carries the filesystem as left behind. -/
def FS.mkdirE (fs : FS) (p : Path) : Except (RunError × FS) FS :=
  if fs.pathExists p then .error (.mkdirExists p, fs)
  else .ok { fs with dirs := p :: fs.dirs }

/-- The proper nonempty prefixes of a path: the ancestors that
`mkdir(parents=True)` may have to create. -/
def Path.strictPrefixes (p : Path) : List Path :=
  (List.range (p.length - 1)).map (fun k => p.take (k + 1))

/-- `Path.mkdir(parents=True)`: raises `FileExistsError` when `p` itself
exists, otherwise creates `p` together with its ancestors. -/
def FS.mkdirParentsE (fs : FS) (p : Path) : Except (RunError × FS) FS :=
  if fs.pathExists p then .error (.mkdirExists p, fs)
  else .ok { fs with dirs := p :: (Path.strictPrefixes p ++ fs.dirs) }

/-- A `libraries` entry of the configuration document. -/
structure Library where
  name : String
  sources : List String
  headers : List String
deriving DecidableEq, Repr

/-- An `executables` entry; `dependencies` is `none` when the key is
absent. -/
structure Executable where
  name : String
  sources : List String
  dependencies : Option (List String) := none
deriving DecidableEq, Repr

/-- The configuration document.  `cStandard`/`cppStandard` are kept in the
textual form in which they are interpolated; `enableTests` and `outputDir`
are `none` when the key is absent. -/
structure Config where
  projectName : String
  cStandard : String
  cppStandard : String
  libraries : List Library
  executables : List Executable
  enableTests : Option Bool := none
  outputDir : Option String := none
deriving DecidableEq, Repr

/-- The fixed lines at the top of the root manifest (the leading f-string of
`create_main_cmakelists`), line by line. -/
def mainHeaderLines (cfg : Config) : List String :=
  [ "cmake_minimum_required(VERSION 3.10)"
  , ""
  , "project(" ++ cfg.projectName ++ " C CXX)"
  , ""
  , "cmake_policy(SET CMP0135 NEW)"
  , ""
  , "set(CMAKE_C_STANDARD " ++ cfg.cStandard ++ ")"
  , "set(CMAKE_CXX_STANDARD " ++ cfg.cppStandard ++ ")"
  , "set(CMAKE_C_STANDARD_REQUIRED ON)"
  , "set(CMAKE_CXX_STANDARD_REQUIRED ON)"
  , ""
  , "# Set a default build type if none was specified"
  , "if(NOT CMAKE_BUILD_TYPE AND NOT CMAKE_CONFIGURATION_TYPES)"
  , "  message(STATUS \"Setting build type to " ++ sq ++ "Release" ++ sq ++ " as none was specified.\")"
  , "  set(CMAKE_BUILD_TYPE Release CACHE STRING \"Choose the type of build, options are: Debug Release RelWithDebInfo MinSizeRel.\" FORCE)"
  , "endif()"
  , ""
  , "# Compiler flags"
  , "set(CMAKE_C_FLAGS \"-Wall -Wextra\")"
  , "set(CMAKE_CXX_FLAGS \"-Wall -Wextra\")"
  , "set(CMAKE_C_FLAGS_DEBUG \"-g\")"
  , "set(CMAKE_C_FLAGS_RELEASE \"-O3\")"
  , "set(CMAKE_CXX_FLAGS_DEBUG \"-g\")"
  , "set(CMAKE_CXX_FLAGS_RELEASE \"-O3\")"
  , ""
  , "# Add library subdirectories" ]

/-- The manifest lines contributed by one executable entry: the target
definition, the optional dependency-linking line (emitted only when
`dependencies` is present and non-empty), and the output-directory
property block. -/
def exeBlockLines (exe : Executable) : List String :=
  ["add_executable(" ++ exe.name ++ " " ++ String.intercalate " " exe.sources ++ ")"]
  ++ (if exe.dependencies.getD [] ≠ [] then
        ["target_link_libraries(" ++ exe.name ++ " PRIVATE "
          ++ String.intercalate " " (exe.dependencies.getD []) ++ ")"]
      else [])
  ++ [ ""
     , "set_target_properties(" ++ exe.name ++ " PROPERTIES"
     , "    RUNTIME_OUTPUT_DIRECTORY $\x7bCMAKE_BINARY_DIR\x7d/bin"
     , ")" ]

/-- The lines appended to the root manifest when
`config.get("enableTests", True)` is true. -/
def testsSectionLines : List String :=
  ["", "", "# --- Testing ---", "enable_testing()", "add_subdirectory(tests)"]

/-- The root manifest as its list of lines; `create_main_cmakelists` joins
them with newlines. -/
def mainCmakeLines (cfg : Config) : List String :=
  mainHeaderLines cfg
  ++ cfg.libraries.map (fun lib => "add_subdirectory(lib/" ++ lib.name ++ ")")
  ++ ["", "# Add executables"]
  ++ (cfg.executables.map exeBlockLines).flatten
  ++ (if cfg.enableTests.getD true then testsSectionLines else [])
  ++ [""]

/-- `create_main_cmakelists` from the source: the root manifest text. -/
def create_main_cmakelists (cfg : Config) : String :=
  String.intercalate "\n" (mainCmakeLines cfg)

/-- `create_lib_cmakelists` from the source. -/
def create_lib_cmakelists (lib : Library) : String :=
  "add_library(" ++ lib.name ++ " " ++ String.intercalate " " lib.sources
    ++ ")\n\ntarget_include_directories(" ++ lib.name ++ " PUBLIC include)\n"

/-- Placeholder program written for each executable source file. -/
def exeSourceContent (exeName : String) : String :=
  "#include <stdio.h>\n\nint main(void) \x7b\n    printf(\"Hello from "
    ++ exeName ++ "\\n\");\n    return 0;\n\x7d\n"

/-- Placeholder source written for each library source file. -/
def libSourceContent (libName : String) : String :=
  "#include \"" ++ libName ++ ".h\"\n#include <stdio.h>\n\nvoid " ++ libName
    ++ "_hello() \x7b\n    printf(\"Hello from " ++ libName ++ "\\n\");\n\x7d\n"

/-- Header text with a given include guard and function-name stem. -/
def mkHeaderContent (guard : String) (fnName : String) : String :=
  "#ifndef " ++ guard ++ "\n#define " ++ guard ++ "\n\nvoid " ++ fnName
    ++ "_hello(void);\n\n#endif\n"

/-- The content written for every header file of a library: the guard is the
uppercased library name followed by `_H`; the header filename is not
consulted. -/
def headerFileContent (libName : String) : String :=
  mkHeaderContent (libName.toUpper ++ "_H") libName

/-- The fixed tests manifest (`tests/CMakeLists.txt`); the second line of the
template is a run of 50 spaces. -/
def testsCMakeContent : String :=
  "# Add GTest\n" ++ String.mk (List.replicate 50 (Char.ofNat 32))
    ++ "\ninclude(FetchContent)\nFetchContent_Declare(\n  googletest\n  URL https://github.com/google/googletest/archive/refs/tags/v1.14.0.zip\n)\n# For Windows: Prevent overriding the parent project"
    ++ sq
    ++ "s compiler/linker settings\nset(gtest_force_shared_crt ON CACHE BOOL \"\" FORCE)\nFetchContent_MakeAvailable(googletest)\n\n# Create the test executable\nadd_executable(run_tests test_foo.cpp)\n\n# Link against GTest and the library to be tested\ntarget_link_libraries(run_tests PRIVATE GTest::gtest_main foo)\n\n# Discover and add tests to CTest\ninclude(GoogleTest)\ngtest_discover_tests(run_tests)\n"

/-- The fixed sample test source (`tests/test_foo.cpp`). -/
def testFooCppContent : String :=
  "#include <gtest/gtest.h>\n#include \"foo.h\"\n\nTEST(FooTest, BasicTest) \x7b\n    // A simple test to ensure the function can be called\n    foo_hello();\n    SUCCEED();\n\x7d\n\nTEST(FooTest, AlwaysPasses) \x7b\n    EXPECT_TRUE(true);\n\x7d\n"

/-- The project root: `outputDir/projectName` when `outputDir` is set in the
configuration, else `projectName` in the current directory. -/
def computeRoot (cfg : Config) : Path :=
  match cfg.outputDir with
  | some d => [d, cfg.projectName]
  | none => [cfg.projectName]

/-- The per-library body of the generation loop in `main`: make the library
directory, write its manifest and placeholder sources, make `include`,
write the headers. -/
def runLib (root : Path) (fs : FS) (lib : Library) : Except (RunError × FS) FS := do
  let libPath := root ++ ["lib", lib.name]
  let fs ← fs.mkdirE libPath
  let fs := fs.writeFile (libPath ++ ["CMakeLists.txt"]) (create_lib_cmakelists lib)
  let fs := lib.sources.foldl
    (fun a src => a.writeFile (libPath ++ [src]) (libSourceContent lib.name)) fs
  let fs ← fs.mkdirE (libPath ++ ["include"])
  let fs := lib.headers.foldl
    (fun a hdr => a.writeFile (libPath ++ ["include", hdr]) (headerFileContent lib.name)) fs
  pure fs

/-- The library loop of `main`. -/
def runLibs (root : Path) (libs : List Library) (fs : FS) : Except (RunError × FS) FS :=
  libs.foldlM (runLib root) fs

/-- Writing the placeholder sources of all executables under the root. -/
def writeExeSources (root : Path) (exes : List Executable) (fs : FS) : FS :=
  exes.foldl
    (fun a exe => exe.sources.foldl
      (fun b src => b.writeFile (root ++ [src]) (exeSourceContent exe.name)) a) fs

/-- The tests step of `main`, guarded by `config.get("enableTests", False)`. -/
def runTestsStep (root : Path) (cfg : Config) (fs : FS) : Except (RunError × FS) FS :=
  if cfg.enableTests.getD false then do
    let fs ← fs.mkdirE (root ++ ["tests"])
    let fs := fs.writeFile (root ++ ["tests", "CMakeLists.txt"]) testsCMakeContent
    pure (fs.writeFile (root ++ ["tests", "test_foo.cpp"]) testFooCppContent)
  else pure fs

/-- `main` after a successful configuration load.  The positional CLI
argument `outputDirArg` is parsed by argparse but never consulted by the
generation logic. -/
def runMain (outputDirArg : Option String) (cfg : Config) (fs : FS) :
    Except (RunError × FS) FS := do
  let root := computeRoot cfg
  if fs.pathExists root then throw (.rootExists root, fs)
  let fs ← fs.mkdirParentsE root
  let fs := fs.writeFile (root ++ ["CMakeLists.txt"]) (create_main_cmakelists cfg)
  let fs := writeExeSources root cfg.executables fs
  let fs ← fs.mkdirE (root ++ ["lib"])
  let fs ← runLibs root cfg.libraries fs
  runTestsStep root cfg fs

/-- The location data of a JSON parse failure. -/
structure JsonDecodeError where
  msg : String
  lineno : Nat
  colno : Nat
  pos : Nat
deriving DecidableEq, Repr

/-- The two configuration-load failures handled in `main`. -/
inductive LoadError where
  | fileNotFound
  | jsonDecode (e : JsonDecodeError)
deriving DecidableEq, Repr

/-- A whole-program failure: a load error or a materialization error. -/
inductive ProgError where
  | load (e : LoadError)
  | run (e : RunError)
deriving DecidableEq, Repr

/-- Modelled from the spec: the textual rendering of a JSON parse error
reports the error and its location within the document (the json library
itself is not part of this repository). -/
def renderJsonError (e : JsonDecodeError) : String :=
  e.msg ++ ": line " ++ toString e.lineno ++ " column " ++ toString e.colno
    ++ " (char " ++ toString e.pos ++ ")"

/-- The error text printed for a failed configuration load, naming the
resolved template path. -/
def loadErrorMessage (templatePath : String) : LoadError → String
  | .fileNotFound => "Error: " ++ sq ++ templatePath ++ sq ++ " not found."
  | .jsonDecode d => "Error decoding JSON from " ++ sq ++ templatePath ++ sq
      ++ ": " ++ renderJsonError d

/-- The error text printed when the computed root already exists. -/
def rootExistsMessage (root : Path) : String :=
  "Error: Directory " ++ sq ++ Path.render root ++ sq ++ " already exists."

/-- The configuration path: `project_template.json` next to the program. -/
def templatePathOf (scriptDir : Path) : Path :=
  scriptDir ++ ["project_template.json"]

/-- `main` including the configuration-load step: on a load failure the
program prints a message and returns with no filesystem effect. -/
def mainEntry (loadResult : Except LoadError Config) (outputDirArg : Option String)
    (fs : FS) : Except (ProgError × FS) FS :=
  match loadResult with
  | .error e => .error (.load e, fs)
  | .ok cfg =>
    match runMain outputDirArg cfg fs with
    | .ok fs' => .ok fs'
    | .error (e, fs') => .error (.run e, fs')

/-! ### Basic filesystem lemmas -/

lemma writeFile_dirs (fs : FS) (p : Path) (c : String) :
    (fs.writeFile p c).dirs = fs.dirs := rfl

lemma writeFile_files (fs : FS) (p : Path) (c : String) :
    (fs.writeFile p c).files = (p, c) :: fs.files := rfl

lemma pathExists_iff (fs : FS) (p : Path) :
    fs.pathExists p = true ↔ p ∈ fs.dirs ∨ ∃ e ∈ fs.files, e.1 = p := by
  simp [FS.pathExists, List.any_eq_true, beq_iff_eq, List.contains_iff_exists_mem_beq]

lemma pathExists_false_iff (fs : FS) (p : Path) :
    fs.pathExists p = false ↔ p ∉ fs.dirs ∧ ∀ e ∈ fs.files, e.1 ≠ p := by
  rw [← Bool.not_eq_true, pathExists_iff]
  push_neg
  exact Iff.rfl

lemma read_writeFile_self (fs : FS) (p : Path) (c : String) :
    (fs.writeFile p c).read p = some c := by
  simp [FS.read, FS.writeFile, List.find?_cons_of_pos]

lemma read_writeFile_ne (fs : FS) {p q : Path} (c : String) (h : q ≠ p) :
    (fs.writeFile p c).read q = fs.read q := by
  have : ((p, c).1 == q) = false := by simp [Ne.symm h]
  simp [FS.read, FS.writeFile, List.find?_cons_of_neg, this]

lemma read_isSome_iff (fs : FS) (q : Path) :
    (fs.read q).isSome = true ↔ ∃ e ∈ fs.files, e.1 = q := by
  simp [FS.read, List.find?_isSome, beq_iff_eq]

lemma read_isSome_of_files_subset {fs fs' : FS} (h : fs.files ⊆ fs'.files) (q : Path)
    (hq : (fs.read q).isSome = true) : (fs'.read q).isSome = true := by
  rw [read_isSome_iff] at hq ⊢
  obtain ⟨e, he, hee⟩ := hq
  exact ⟨e, h he, hee⟩

/-! ### Lemmas about folds of writes -/

lemma foldl_write_dirs {α : Type} (g : α → Path) (c : α → String) (l : List α) (fs : FS) :
    (l.foldl (fun a x => a.writeFile (g x) (c x)) fs).dirs = fs.dirs := by
  induction l generalizing fs with
  | nil => rfl
  | cons y ys ih => simpa using ih (fs.writeFile (g y) (c y))

lemma foldl_write_files_mono {α : Type} (g : α → Path) (c : α → String) (l : List α) (fs : FS) :
    fs.files ⊆ (l.foldl (fun a x => a.writeFile (g x) (c x)) fs).files := by
  induction l generalizing fs with
  | nil => exact fun e he => he
  | cons y ys ih =>
    intro e he
    exact ih (fs.writeFile (g y) (c y)) (List.mem_cons_of_mem _ he)

lemma foldl_write_files_sub {α : Type} (g : α → Path) (c : α → String) (l : List α) (fs : FS) :
    ∀ e ∈ (l.foldl (fun a x => a.writeFile (g x) (c x)) fs).files,
      e ∈ fs.files ∨ ∃ x ∈ l, e = (g x, c x) := by
  induction l generalizing fs with
  | nil => exact fun e he => Or.inl he
  | cons y ys ih =>
    intro e he
    rcases ih (fs.writeFile (g y) (c y)) e he with hin | ⟨x, hx, hex⟩
    · rcases List.mem_cons.mp hin with h | h
      · exact Or.inr ⟨y, List.mem_cons_self y ys, h⟩
      · exact Or.inl h
    · exact Or.inr ⟨x, List.mem_cons_of_mem _ hx, hex⟩

lemma foldl_write_read_const {α : Type} (g : α → Path) (c : String) (l : List α) (fs : FS)
    (q : Path) :
    (l.foldl (fun a x => a.writeFile (g x) c) fs).read q
      = if q ∈ l.map g then some c else fs.read q := by
  induction l generalizing fs with
  | nil => simp
  | cons y ys ih =>
    simp only [List.foldl_cons, List.map_cons, List.mem_cons]
    rw [ih]
    by_cases hq : q ∈ ys.map g
    · simp [hq]
    · by_cases hy : q = g y
      · simp [hq, hy, read_writeFile_self]
      · simp [hq, hy, read_writeFile_ne _ _ hy]

/-! ### Unfolding the materializer -/

lemma mkdirE_of_not_exists {fs : FS} {p : Path} (h : fs.pathExists p = false) :
    fs.mkdirE p = .ok ⟨p :: fs.dirs, fs.files⟩ := by
  simp [FS.mkdirE, h]

lemma mkdirE_of_exists {fs : FS} {p : Path} (h : fs.pathExists p = true) :
    fs.mkdirE p = .error (.mkdirExists p, fs) := by
  simp [FS.mkdirE, h]

lemma except_bind_ok {ε α β : Type} (a : α) (f : α → Except ε β) :
    (Except.ok a >>= f) = f a := rfl

lemma except_bind_error {ε α β : Type} (e : ε) (f : α → Except ε β) :
    ((Except.error e : Except ε α) >>= f) = .error e := rfl

lemma except_pure {ε α : Type} (a : α) : (pure a : Except ε α) = .ok a := rfl

lemma except_throw {ε α : Type} (e : ε) : (throw e : Except ε α) = .error e := rfl

lemma runLib_unfold (root : Path) (fs : FS) (lib : Library) :
    runLib root fs lib =
      if fs.pathExists (root ++ ["lib", lib.name]) = true
      then .error (.mkdirExists (root ++ ["lib", lib.name]), fs)
      else
        let fs₂ := lib.sources.foldl
          (fun a src => a.writeFile (root ++ ["lib", lib.name] ++ [src])
            (libSourceContent lib.name))
          (FS.writeFile ⟨(root ++ ["lib", lib.name]) :: fs.dirs, fs.files⟩
            (root ++ ["lib", lib.name] ++ ["CMakeLists.txt"]) (create_lib_cmakelists lib))
        if fs₂.pathExists (root ++ ["lib", lib.name] ++ ["include"]) = true
        then .error (.mkdirExists (root ++ ["lib", lib.name] ++ ["include"]), fs₂)
        else .ok (lib.headers.foldl
          (fun a hdr => a.writeFile (root ++ ["lib", lib.name] ++ ["include", hdr])
            (headerFileContent lib.name))
          ⟨(root ++ ["lib", lib.name] ++ ["include"]) :: fs₂.dirs, fs₂.files⟩) := by
  by_cases h1 : fs.pathExists (root ++ ["lib", lib.name]) = true
  · simp [runLib, FS.mkdirE, h1, except_bind_error]
  · rw [Bool.not_eq_true] at h1
    simp only [runLib, FS.mkdirE, h1, Bool.false_eq_true, if_false, except_bind_ok]
    split
    · rfl
    · rfl

lemma runTestsStep_unfold (root : Path) (cfg : Config) (fs : FS) :
    runTestsStep root cfg fs =
      if cfg.enableTests.getD false = true then
        if fs.pathExists (root ++ ["tests"]) = true
        then .error (.mkdirExists (root ++ ["tests"]), fs)
        else .ok ((FS.writeFile ⟨(root ++ ["tests"]) :: fs.dirs, fs.files⟩
            (root ++ ["tests", "CMakeLists.txt"]) testsCMakeContent).writeFile
            (root ++ ["tests", "test_foo.cpp"]) testFooCppContent)
      else .ok fs := by
  by_cases h0 : cfg.enableTests.getD false = true
  · by_cases h1 : fs.pathExists (root ++ ["tests"]) = true
    · simp [runTestsStep, FS.mkdirE, h0, h1, except_bind_error]
    · rw [Bool.not_eq_true] at h1
      simp [runTestsStep, FS.mkdirE, h0, h1, except_bind_ok]
  · simp [runTestsStep, h0, except_pure]

lemma runMain_unfold (cli : Option String) (cfg : Config) (fs : FS) :
    runMain cli cfg fs =
      if fs.pathExists (computeRoot cfg) = true
      then .error (.rootExists (computeRoot cfg), fs)
      else
        let fs₃ := writeExeSources (computeRoot cfg) cfg.executables
          (FS.writeFile
            ⟨computeRoot cfg :: (Path.strictPrefixes (computeRoot cfg) ++ fs.dirs), fs.files⟩
            (computeRoot cfg ++ ["CMakeLists.txt"]) (create_main_cmakelists cfg))
        if fs₃.pathExists (computeRoot cfg ++ ["lib"]) = true
        then .error (.mkdirExists (computeRoot cfg ++ ["lib"]), fs₃)
        else
          (runLibs (computeRoot cfg) cfg.libraries
              ⟨(computeRoot cfg ++ ["lib"]) :: fs₃.dirs, fs₃.files⟩) >>=
            runTestsStep (computeRoot cfg) cfg := by
  by_cases h1 : fs.pathExists (computeRoot cfg) = true
  · simp [runMain, FS.mkdirParentsE, h1, except_throw, except_bind_error]
  · rw [Bool.not_eq_true] at h1
    simp only [runMain, FS.mkdirParentsE, FS.mkdirE, h1, Bool.false_eq_true, if_false,
      except_bind_ok]
    split
    · rfl
    · rfl

/-! ### Characterizing a successful or failed library step -/

lemma runLib_ok_dirs {root : Path} {fs fs' : FS} {lib : Library}
    (h : runLib root fs lib = .ok fs') :
    fs'.dirs = (root ++ ["lib", lib.name] ++ ["include"])
      :: (root ++ ["lib", lib.name]) :: fs.dirs := by
  rw [runLib_unfold] at h
  split at h
  · cases h
  · dsimp only at h
    split at h
    · cases h
    · rw [Except.ok.injEq] at h
      subst h
      rw [foldl_write_dirs]
      dsimp only
      congr 1
      rw [foldl_write_dirs]
      rfl

lemma runLib_ok_files_mono {root : Path} {fs fs' : FS} {lib : Library}
    (h : runLib root fs lib = .ok fs') : fs.files ⊆ fs'.files := by
  rw [runLib_unfold] at h
  split at h
  · cases h
  · dsimp only at h
    split at h
    · cases h
    · rw [Except.ok.injEq] at h
      subst h
      intro e he
      apply foldl_write_files_mono
      show e ∈ _
      apply foldl_write_files_mono
      exact List.mem_cons_of_mem _ he

lemma runLib_ok_files_sub {root : Path} {fs fs' : FS} {lib : Library}
    (h : runLib root fs lib = .ok fs') :
    ∀ e ∈ fs'.files, e ∈ fs.files ∨
      (∃ y, e.1 = root ++ ["lib", lib.name] ++ [y]) ∨
      ∃ y, e.1 = root ++ ["lib", lib.name] ++ ["include", y] := by
  rw [runLib_unfold] at h
  split at h
  · cases h
  · dsimp only at h
    split at h
    · cases h
    · rw [Except.ok.injEq] at h
      subst h
      intro e he
      rcases foldl_write_files_sub _ _ _ _ e he with he2 | ⟨x, _, hex⟩
      · rcases foldl_write_files_sub _ _ _ _ e he2 with he3 | ⟨x, _, hex⟩
        · rcases List.mem_cons.mp he3 with he4 | he4
          · exact Or.inr (Or.inl ⟨"CMakeLists.txt", by rw [he4]⟩)
          · exact Or.inl he4
        · exact Or.inr (Or.inl ⟨x, by rw [hex]⟩)
      · exact Or.inr (Or.inr ⟨x, by rw [hex]⟩)

lemma runLib_err_mono {root : Path} {fs fs' : FS} {lib : Library} {e : RunError}
    (h : runLib root fs lib = .error (e, fs')) :
    fs.dirs ⊆ fs'.dirs ∧ fs.files ⊆ fs'.files := by
  rw [runLib_unfold] at h
  split at h
  · rw [Except.error.injEq, Prod.mk.injEq] at h
    rw [← h.2]
    exact ⟨fun d hd => hd, fun x hx => hx⟩
  · dsimp only at h
    split at h
    · rw [Except.error.injEq, Prod.mk.injEq] at h
      rw [← h.2]
      constructor
      · rw [foldl_write_dirs]
        exact fun d hd => List.mem_cons_of_mem _ hd
      · intro x hx
        apply foldl_write_files_mono
        exact List.mem_cons_of_mem _ hx
    · cases h

lemma runLibs_nil (root : Path) (fs : FS) : runLibs root [] fs = .ok fs := rfl

lemma runLibs_cons (root : Path) (lib : Library) (libs : List Library) (fs : FS) :
    runLibs root (lib :: libs) fs = (runLib root fs lib) >>= runLibs root libs := by
  rw [runLibs, List.foldlM_cons]
  rfl

lemma runLibs_ok_mono {root : Path} (libs : List Library) : ∀ {fs fs' : FS},
    runLibs root libs fs = .ok fs' → fs.dirs ⊆ fs'.dirs ∧ fs.files ⊆ fs'.files := by
  induction libs with
  | nil =>
    intro fs fs' h
    rw [runLibs_nil, Except.ok.injEq] at h
    subst h
    exact ⟨fun d hd => hd, fun x hx => hx⟩
  | cons l ls ih =>
    intro fs fs' h
    rw [runLibs_cons] at h
    cases hr : runLib root fs l with
    | ok m =>
      rw [hr, except_bind_ok] at h
      have h1 := runLib_ok_dirs hr
      have h2 := runLib_ok_files_mono hr
      have h3 := ih h
      constructor
      · intro d hd
        apply h3.1
        rw [h1]
        exact List.mem_cons_of_mem _ (List.mem_cons_of_mem _ hd)
      · exact fun x hx => h3.2 (h2 hx)
    | error p =>
      rw [hr, except_bind_error] at h
      cases h

lemma runLibs_err_mono {root : Path} (libs : List Library) : ∀ {fs fs' : FS} {e : RunError},
    runLibs root libs fs = .error (e, fs') → fs.dirs ⊆ fs'.dirs ∧ fs.files ⊆ fs'.files := by
  induction libs with
  | nil =>
    intro fs fs' e h
    rw [runLibs_nil] at h
    cases h
  | cons l ls ih =>
    intro fs fs' e h
    rw [runLibs_cons] at h
    cases hr : runLib root fs l with
    | ok m =>
      rw [hr, except_bind_ok] at h
      have h1 := runLib_ok_dirs hr
      have h2 := runLib_ok_files_mono hr
      have h3 := ih h
      constructor
      · intro d hd
        apply h3.1
        rw [h1]
        exact List.mem_cons_of_mem _ (List.mem_cons_of_mem _ hd)
      · exact fun x hx => h3.2 (h2 hx)
    | error p =>
      rw [hr, except_bind_error, Except.error.injEq] at h
      obtain ⟨m, fsm⟩ := p
      rw [Prod.mk.injEq] at h
      cases h.1
      rw [← h.2]
      exact runLib_err_mono hr

lemma runLibs_ok_dirs_sub {root : Path} (libs : List Library) : ∀ {fs fs' : FS},
    runLibs root libs fs = .ok fs' →
    ∀ d ∈ fs'.dirs, d ∈ fs.dirs ∨ ∃ lib ∈ libs,
      d = root ++ ["lib", lib.name] ∨ d = root ++ ["lib", lib.name] ++ ["include"] := by
  induction libs with
  | nil =>
    intro fs fs' h
    rw [runLibs_nil, Except.ok.injEq] at h
    subst h
    exact fun d hd => Or.inl hd
  | cons l ls ih =>
    intro fs fs' h
    rw [runLibs_cons] at h
    cases hr : runLib root fs l with
    | ok m =>
      rw [hr, except_bind_ok] at h
      intro d hd
      rcases ih h d hd with hin | ⟨lib, hlib, hd2⟩
      · rw [runLib_ok_dirs hr] at hin
        rcases List.mem_cons.mp hin with h1 | h1
        · exact Or.inr ⟨l, List.mem_cons_self l ls, Or.inr h1⟩
        · rcases List.mem_cons.mp h1 with h2 | h2
          · exact Or.inr ⟨l, List.mem_cons_self l ls, Or.inl h2⟩
          · exact Or.inl h2
      · exact Or.inr ⟨lib, List.mem_cons_of_mem _ hlib, hd2⟩
    | error p =>
      rw [hr, except_bind_error] at h
      cases h

lemma runLibs_ok_files_sub {root : Path} (libs : List Library) : ∀ {fs fs' : FS},
    runLibs root libs fs = .ok fs' →
    ∀ e ∈ fs'.files, e ∈ fs.files ∨ ∃ lib ∈ libs,
      (∃ y, e.1 = root ++ ["lib", lib.name] ++ [y]) ∨
      ∃ y, e.1 = root ++ ["lib", lib.name] ++ ["include", y] := by
  induction libs with
  | nil =>
    intro fs fs' h
    rw [runLibs_nil, Except.ok.injEq] at h
    subst h
    exact fun e he => Or.inl he
  | cons l ls ih =>
    intro fs fs' h
    rw [runLibs_cons] at h
    cases hr : runLib root fs l with
    | ok m =>
      rw [hr, except_bind_ok] at h
      intro e he
      rcases ih h e he with hin | ⟨lib, hlib, hd2⟩
      · rcases runLib_ok_files_sub hr e hin with h1 | h1
        · exact Or.inl h1
        · exact Or.inr ⟨l, List.mem_cons_self l ls, h1⟩
      · exact Or.inr ⟨lib, List.mem_cons_of_mem _ hlib, hd2⟩
    | error p =>
      rw [hr, except_bind_error] at h
      cases h

/-! ### A shape invariant carried through the library loop -/

lemma strictPrefixes_length_lt {p q : Path} (h : q ∈ Path.strictPrefixes p) :
    q.length < p.length := by
  simp only [Path.strictPrefixes, List.mem_map, List.mem_range] at h
  obtain ⟨k, hk, rfl⟩ := h
  simp only [List.length_take]
  omega

/-- While the library loop runs, every directory is an ancestor of the root,
the root, `lib`, or a subdirectory of an already-processed library; every
file sits directly under the root with a name from `ones`, or inside an
directory of an already-processed library. -/
def LibShape (root : Path) (ones : List String) (done : List String) (fs : FS) : Prop :=
  (∀ d ∈ fs.dirs, d.length < root.length ∨ d = root ∨ d = root ++ ["lib"] ∨
      ∃ m ∈ done, d = root ++ ["lib", m] ∨ d = root ++ ["lib", m, "include"]) ∧
  (∀ e ∈ fs.files, (∃ x ∈ ones, e.1 = root ++ [x]) ∨
      ∃ m ∈ done, ∃ y, e.1 = root ++ ["lib", m, y] ∨ e.1 = root ++ ["lib", m, "include", y])

lemma LibShape.mono {root : Path} {ones done done' : List String} {fs : FS}
    (hsub : ∀ m ∈ done, m ∈ done') (h : LibShape root ones done fs) :
    LibShape root ones done' fs := by
  obtain ⟨hd, hf⟩ := h
  constructor
  · intro d hdd
    rcases hd d hdd with h1 | h1 | h1 | ⟨m, hm, h1⟩
    · exact Or.inl h1
    · exact Or.inr (Or.inl h1)
    · exact Or.inr (Or.inr (Or.inl h1))
    · exact Or.inr (Or.inr (Or.inr ⟨m, hsub m hm, h1⟩))
  · intro e hee
    rcases hf e hee with h1 | ⟨m, hm, h1⟩
    · exact Or.inl h1
    · exact Or.inr ⟨m, hsub m hm, h1⟩

lemma runLib_ok_of_shape {root : Path} {fs : FS} {lib : Library} {ones done : List String}
    (hs : LibShape root ones done fs) (hn : lib.name ∉ done)
    (hincl : "include" ∉ lib.sources) :
    ∃ fs', runLib root fs lib = .ok fs' ∧ LibShape root ones (lib.name :: done) fs' := by
  obtain ⟨hsd, hsf⟩ := hs
  have hc1 : fs.pathExists (root ++ ["lib", lib.name]) = false := by
    rw [pathExists_false_iff]
    constructor
    · intro hd
      rcases hsd _ hd with h1 | h1 | h1 | ⟨m, hm, h1 | h1⟩
      · simp only [List.length_append, List.length_cons, List.length_nil] at h1
        omega
      · simp at h1
      · simp at h1
      · simp only [List.append_right_inj, List.cons.injEq, and_true, true_and] at h1
        apply hn
        rw [h1]
        exact hm
      · simp at h1
    · intro e he hep
      rcases hsf e he with ⟨x, _, h1⟩ | ⟨m, hm, y, h1 | h1⟩
      · rw [hep] at h1
        simp at h1
      · rw [hep] at h1
        simp at h1
      · rw [hep] at h1
        simp at h1
  rw [runLib_unfold, hc1]
  simp only [Bool.false_eq_true, if_false]
  have hfd : (lib.sources.foldl
      (fun a src => a.writeFile (root ++ ["lib", lib.name] ++ [src]) (libSourceContent lib.name))
      (FS.writeFile ⟨(root ++ ["lib", lib.name]) :: fs.dirs, fs.files⟩
        (root ++ ["lib", lib.name] ++ ["CMakeLists.txt"]) (create_lib_cmakelists lib))).dirs
      = (root ++ ["lib", lib.name]) :: fs.dirs := by
    rw [foldl_write_dirs]
    rfl
  have hff : ∀ e ∈ (lib.sources.foldl
      (fun a src => a.writeFile (root ++ ["lib", lib.name] ++ [src]) (libSourceContent lib.name))
      (FS.writeFile ⟨(root ++ ["lib", lib.name]) :: fs.dirs, fs.files⟩
        (root ++ ["lib", lib.name] ++ ["CMakeLists.txt"]) (create_lib_cmakelists lib))).files,
      e ∈ fs.files ∨ e.1 = root ++ ["lib", lib.name, "CMakeLists.txt"] ∨
        ∃ s ∈ lib.sources, e.1 = root ++ ["lib", lib.name, s] := by
    intro e he
    rcases foldl_write_files_sub _ _ _ _ e he with h1 | ⟨s, hsmem, h1⟩
    · rcases List.mem_cons.mp h1 with h2 | h2
      · refine Or.inr (Or.inl ?_)
        rw [h2]
        simp
      · exact Or.inl h2
    · refine Or.inr (Or.inr ⟨s, hsmem, ?_⟩)
      rw [h1]
      simp
  have hc2 : (lib.sources.foldl
      (fun a src => a.writeFile (root ++ ["lib", lib.name] ++ [src]) (libSourceContent lib.name))
      (FS.writeFile ⟨(root ++ ["lib", lib.name]) :: fs.dirs, fs.files⟩
        (root ++ ["lib", lib.name] ++ ["CMakeLists.txt"]) (create_lib_cmakelists lib))).pathExists
      (root ++ ["lib", lib.name] ++ ["include"]) = false := by
    rw [pathExists_false_iff]
    constructor
    · rw [hfd]
      intro hd
      rcases List.mem_cons.mp hd with h1 | h1
      · simp at h1
      · rcases hsd _ h1 with h2 | h2 | h2 | ⟨m, hm, h2 | h2⟩
        · simp only [List.append_assoc, List.length_append, List.length_cons,
            List.length_nil] at h2
          omega
        · simp [List.append_assoc] at h2
        · simp [List.append_assoc] at h2
        · simp [List.append_assoc] at h2
        · simp only [List.append_assoc, List.cons_append, List.nil_append,
            List.append_right_inj, List.cons.injEq, and_true, true_and] at h2
          apply hn
          rw [h2]
          exact hm
    · intro e he hep
      rcases hff e he with h1 | h1 | ⟨s, hsmem, h1⟩
      · rcases hsf e h1 with ⟨x, _, h2⟩ | ⟨m, hm, y, h2 | h2⟩
        · rw [hep] at h2
          simp [List.append_assoc] at h2
        · rw [hep] at h2
          simp only [List.append_assoc, List.cons_append, List.nil_append,
            List.append_right_inj, List.cons.injEq, and_true, true_and] at h2
          apply hn
          rw [h2.1]
          exact hm
        · rw [hep] at h2
          simp [List.append_assoc] at h2
      · rw [hep] at h1
        simp [List.append_assoc] at h1
      · rw [hep] at h1
        simp only [List.append_assoc, List.cons_append, List.nil_append,
          List.append_right_inj, List.cons.injEq, and_true, true_and] at h1
        rw [← h1] at hsmem
        exact hincl hsmem
  rw [hc2]
  simp only [Bool.false_eq_true, if_false]
  refine ⟨_, rfl, ?_, ?_⟩
  · rw [foldl_write_dirs]
    show ∀ d ∈ _ :: _, _
    intro d hd
    rcases List.mem_cons.mp hd with h1 | h1
    · exact Or.inr (Or.inr (Or.inr ⟨lib.name, List.mem_cons_self _ _,
        Or.inr (by rw [h1]; simp)⟩))
    · rw [hfd] at h1
      rcases List.mem_cons.mp h1 with h2 | h2
      · exact Or.inr (Or.inr (Or.inr ⟨lib.name, List.mem_cons_self _ _, Or.inl h2⟩))
      · rcases hsd _ h2 with h3 | h3 | h3 | ⟨m, hm, h3⟩
        · exact Or.inl h3
        · exact Or.inr (Or.inl h3)
        · exact Or.inr (Or.inr (Or.inl h3))
        · exact Or.inr (Or.inr (Or.inr ⟨m, List.mem_cons_of_mem _ hm, h3⟩))
  · intro e he
    rcases foldl_write_files_sub _ _ _ _ e he with h1 | ⟨hdr, hmem, h1⟩
    · rcases hff e h1 with h2 | h2 | ⟨s, hsmem, h2⟩
      · rcases hsf e h2 with ⟨x, hx, h3⟩ | ⟨m, hm, y, h3⟩
        · exact Or.inl ⟨x, hx, h3⟩
        · exact Or.inr ⟨m, List.mem_cons_of_mem _ hm, y, h3⟩
      · exact Or.inr ⟨lib.name, List.mem_cons_self _ _, "CMakeLists.txt", Or.inl h2⟩
      · exact Or.inr ⟨lib.name, List.mem_cons_self _ _, s, Or.inl h2⟩
    · refine Or.inr ⟨lib.name, List.mem_cons_self _ _, hdr, Or.inr ?_⟩
      rw [h1]
      simp

lemma runLibs_ok_of_shape {root : Path} (libs : List Library) :
    ∀ (done : List String) (fs : FS) (ones : List String),
    LibShape root ones done fs →
    (libs.map Library.name).Nodup →
    (∀ l ∈ libs, l.name ∉ done) →
    (∀ l ∈ libs, "include" ∉ l.sources) →
    ∃ fs', runLibs root libs fs = .ok fs' ∧
      LibShape root ones (libs.map Library.name ++ done) fs' := by
  induction libs with
  | nil =>
    intro done fs ones hs _ _ _
    exact ⟨fs, runLibs_nil root fs, by simpa using hs⟩
  | cons l ls ih =>
    intro done fs ones hs hnd hdone hincl
    obtain ⟨fs1, hok, hs1⟩ := runLib_ok_of_shape hs (hdone l (List.mem_cons_self l ls))
      (hincl l (List.mem_cons_self l ls))
    rw [List.map_cons, List.nodup_cons] at hnd
    have hdone' : ∀ r ∈ ls, r.name ∉ l.name :: done := by
      intro r hr
      rw [List.mem_cons]
      push_neg
      constructor
      · intro hq
        exact hnd.1 (hq ▸ List.mem_map_of_mem Library.name hr)
      · exact hdone r (List.mem_cons_of_mem _ hr)
    obtain ⟨fs', hok', hs'⟩ := ih (l.name :: done) fs1 ones hs1 hnd.2 hdone'
      (fun r hr => hincl r (List.mem_cons_of_mem _ hr))
    refine ⟨fs', ?_, ?_⟩
    · rw [runLibs_cons, hok, except_bind_ok]
      exact hok'
    · refine LibShape.mono ?_ hs'
      intro m hm
      simp only [List.mem_append, List.mem_cons, List.map_cons] at hm ⊢
      tauto

/-! ### From the start of `main` to the library loop -/

lemma writeExeSources_dirs (root : Path) (exes : List Executable) (fs : FS) :
    (writeExeSources root exes fs).dirs = fs.dirs := by
  induction exes generalizing fs with
  | nil => rfl
  | cons e es ih =>
    have h1 : writeExeSources root (e :: es) fs
        = writeExeSources root es (e.sources.foldl
            (fun b src => b.writeFile (root ++ [src]) (exeSourceContent e.name)) fs) := rfl
    rw [h1, ih, foldl_write_dirs]

lemma writeExeSources_files_mono (root : Path) (exes : List Executable) (fs : FS) :
    fs.files ⊆ (writeExeSources root exes fs).files := by
  induction exes generalizing fs with
  | nil => exact fun x hx => hx
  | cons e es ih =>
    intro x hx
    exact ih _ (foldl_write_files_mono _ _ _ _ hx)

lemma writeExeSources_files_sub (root : Path) (exes : List Executable) (fs : FS) :
    ∀ x ∈ (writeExeSources root exes fs).files,
      x ∈ fs.files ∨ ∃ exe ∈ exes, ∃ s ∈ exe.sources, x.1 = root ++ [s] := by
  induction exes generalizing fs with
  | nil => exact fun x hx => Or.inl hx
  | cons e es ih =>
    intro x hx
    rcases ih _ x hx with h1 | ⟨exe, hexe, s, hs, hx1⟩
    · rcases foldl_write_files_sub (fun s => root ++ [s])
        (fun _ => exeSourceContent e.name) e.sources fs x h1 with h2 | ⟨s, hs, hx2⟩
      · exact Or.inl h2
      · exact Or.inr ⟨e, List.mem_cons_self e es, s, hs, by rw [hx2]⟩
    · exact Or.inr ⟨exe, List.mem_cons_of_mem _ hexe, s, hs, hx1⟩

/-- No generated-source filename collides with the fixed directory names the
tool creates (`lib` and `tests` under the root, `include` under each
library directory). -/
def Hygiene (cfg : Config) : Prop :=
  (∀ e ∈ cfg.executables, "lib" ∉ e.sources ∧ "tests" ∉ e.sources) ∧
  (∀ l ∈ cfg.libraries, "include" ∉ l.sources)

lemma runMain_ok_of_hygiene (cli : Option String) (cfg : Config)
    (hnd : (cfg.libraries.map Library.name).Nodup) (hyg : Hygiene cfg) :
    ∃ fs', runMain cli cfg FS.empty = .ok fs' := by
  rw [runMain_unfold]
  have h0 : FS.empty.pathExists (computeRoot cfg) = false := rfl
  rw [h0]
  simp only [Bool.false_eq_true, if_false]
  have hd3 : (writeExeSources (computeRoot cfg) cfg.executables
      (FS.writeFile ⟨computeRoot cfg ::
          (Path.strictPrefixes (computeRoot cfg) ++ FS.empty.dirs), FS.empty.files⟩
        (computeRoot cfg ++ ["CMakeLists.txt"]) (create_main_cmakelists cfg))).dirs
      = computeRoot cfg :: Path.strictPrefixes (computeRoot cfg) := by
    rw [writeExeSources_dirs]
    show computeRoot cfg :: (Path.strictPrefixes (computeRoot cfg) ++ FS.empty.dirs) = _
    rw [FS.empty]
    rw [List.append_nil]
  have hf3 : ∀ x ∈ (writeExeSources (computeRoot cfg) cfg.executables
      (FS.writeFile ⟨computeRoot cfg ::
          (Path.strictPrefixes (computeRoot cfg) ++ FS.empty.dirs), FS.empty.files⟩
        (computeRoot cfg ++ ["CMakeLists.txt"]) (create_main_cmakelists cfg))).files,
      x.1 = computeRoot cfg ++ ["CMakeLists.txt"] ∨
        ∃ exe ∈ cfg.executables, ∃ s ∈ exe.sources, x.1 = computeRoot cfg ++ [s] := by
    intro x hx
    rcases writeExeSources_files_sub _ _ _ x hx with h1 | h1
    · rcases List.mem_cons.mp h1 with h2 | h2
      · exact Or.inl (by rw [h2])
      · exact absurd h2 (List.not_mem_nil x)
    · exact Or.inr h1
  have hlib : (writeExeSources (computeRoot cfg) cfg.executables
      (FS.writeFile ⟨computeRoot cfg ::
          (Path.strictPrefixes (computeRoot cfg) ++ FS.empty.dirs), FS.empty.files⟩
        (computeRoot cfg ++ ["CMakeLists.txt"]) (create_main_cmakelists cfg))).pathExists
      (computeRoot cfg ++ ["lib"]) = false := by
    rw [pathExists_false_iff]
    constructor
    · rw [hd3]
      intro hd
      rcases List.mem_cons.mp hd with h1 | h1
      · simp at h1
      · have := strictPrefixes_length_lt h1
        simp only [List.length_append, List.length_cons, List.length_nil] at this
        omega
    · intro e he hep
      rcases hf3 e he with h1 | ⟨exe, hexe, s, hs, h1⟩
      · rw [hep] at h1
        simp at h1
      · rw [hep] at h1
        simp only [List.append_right_inj, List.cons.injEq, and_true] at h1
        rw [← h1] at hs
        exact (hyg.1 exe hexe).1 hs
  rw [hlib]
  simp only [Bool.false_eq_true, if_false]
  have hshape : LibShape (computeRoot cfg)
      ("CMakeLists.txt" :: cfg.executables.flatMap Executable.sources) []
      ⟨(computeRoot cfg ++ ["lib"]) :: (writeExeSources (computeRoot cfg) cfg.executables
        (FS.writeFile ⟨computeRoot cfg ::
            (Path.strictPrefixes (computeRoot cfg) ++ FS.empty.dirs), FS.empty.files⟩
          (computeRoot cfg ++ ["CMakeLists.txt"]) (create_main_cmakelists cfg))).dirs,
       (writeExeSources (computeRoot cfg) cfg.executables
        (FS.writeFile ⟨computeRoot cfg ::
            (Path.strictPrefixes (computeRoot cfg) ++ FS.empty.dirs), FS.empty.files⟩
          (computeRoot cfg ++ ["CMakeLists.txt"]) (create_main_cmakelists cfg))).files⟩ := by
    constructor
    · intro d hd
      rcases List.mem_cons.mp hd with h1 | h1
      · exact Or.inr (Or.inr (Or.inl h1))
      · rw [hd3] at h1
        rcases List.mem_cons.mp h1 with h2 | h2
        · exact Or.inr (Or.inl h2)
        · exact Or.inl (strictPrefixes_length_lt h2)
    · intro e he
      rcases hf3 e he with h1 | ⟨exe, hexe, s, hs, h1⟩
      · exact Or.inl ⟨"CMakeLists.txt", List.mem_cons_self _ _, h1⟩
      · refine Or.inl ⟨s, List.mem_cons_of_mem _ ?_, h1⟩
        rw [List.mem_flatMap]
        exact ⟨exe, hexe, hs⟩
  obtain ⟨fs5, hok5, hs5⟩ := runLibs_ok_of_shape cfg.libraries [] _ _ hshape hnd
    (fun l _ => List.not_mem_nil l.name) hyg.2
  rw [hok5, except_bind_ok, runTestsStep_unfold]
  by_cases hte : cfg.enableTests.getD false = true
  · have htests : fs5.pathExists (computeRoot cfg ++ ["tests"]) = false := by
      rw [pathExists_false_iff]
      constructor
      · intro hd
        rcases hs5.1 _ hd with h1 | h1 | h1 | ⟨m, _, h1 | h1⟩
        · simp only [List.length_append, List.length_cons, List.length_nil] at h1
          omega
        · simp at h1
        · simp at h1
        · simp at h1
        · simp at h1
      · intro e he hep
        rcases hs5.2 e he with ⟨x, hx, h1⟩ | ⟨m, _, y, h1 | h1⟩
        · rw [hep] at h1
          simp only [List.append_right_inj, List.cons.injEq, and_true] at h1
          rcases List.mem_cons.mp hx with h2 | h2
          · rw [← h1] at h2
            simp at h2
          · rw [List.mem_flatMap] at h2
            obtain ⟨exe, hexe, hsx⟩ := h2
            rw [← h1] at hsx
            exact (hyg.1 exe hexe).2 hsx
        · rw [hep] at h1
          simp at h1
        · rw [hep] at h1
          simp at h1
    rw [hte, htests]
    simp only [Bool.false_eq_true, if_false, if_true]
    exact ⟨_, rfl⟩
  · rw [Bool.not_eq_true] at hte
    rw [hte]
    simp only [Bool.false_eq_true, if_false]
    exact ⟨fs5, rfl⟩

/-! ### Results of the whole run -/

lemma except_bind_ok_inv {ε α β : Type} {x : Except ε α} {f : α → Except ε β} {b : β}
    (h : (x >>= f) = .ok b) : ∃ a, x = .ok a ∧ f a = .ok b := by
  cases x with
  | ok a => exact ⟨a, rfl, h⟩
  | error e => rw [except_bind_error] at h; cases h

lemma except_bind_error_inv {ε α β : Type} {x : Except ε α} {f : α → Except ε β} {e : ε}
    (h : (x >>= f) = .error e) : x = .error e ∨ ∃ a, x = .ok a ∧ f a = .error e := by
  cases x with
  | ok a => exact Or.inr ⟨a, rfl, h⟩
  | error e2 =>
    rw [except_bind_error, Except.error.injEq] at h
    subst h
    exact Or.inl rfl

lemma runTestsStep_no_tests {root : Path} {cfg : Config} {fs : FS}
    (h : cfg.enableTests.getD false = false) : runTestsStep root cfg fs = .ok fs := by
  rw [runTestsStep_unfold, h]
  simp

lemma runTestsStep_ok_mono {root : Path} {cfg : Config} {fs fs' : FS}
    (h : runTestsStep root cfg fs = .ok fs') :
    fs.dirs ⊆ fs'.dirs ∧ fs.files ⊆ fs'.files := by
  rw [runTestsStep_unfold] at h
  split at h
  · split at h
    · cases h
    · rw [Except.ok.injEq] at h
      subst h
      exact ⟨fun d hd => List.mem_cons_of_mem _ hd,
        fun x hx => List.mem_cons_of_mem _ (List.mem_cons_of_mem _ hx)⟩
  · rw [Except.ok.injEq] at h
    subst h
    exact ⟨fun d hd => hd, fun x hx => hx⟩

lemma runTestsStep_ok_dirs_sub {root : Path} {cfg : Config} {fs fs' : FS}
    (h : runTestsStep root cfg fs = .ok fs') :
    ∀ d ∈ fs'.dirs, d ∈ fs.dirs ∨
      (cfg.enableTests.getD false = true ∧ d = root ++ ["tests"]) := by
  rw [runTestsStep_unfold] at h
  split at h
  · split at h
    · cases h
    · rw [Except.ok.injEq] at h
      subst h
      intro d hd
      rcases List.mem_cons.mp hd with h1 | h1
      · right
        constructor
        · assumption
        · exact h1
      · exact Or.inl h1
  · rw [Except.ok.injEq] at h
    subst h
    exact fun d hd => Or.inl hd

lemma runTestsStep_err_fs {root : Path} {cfg : Config} {fs fs' : FS} {e : RunError}
    (h : runTestsStep root cfg fs = .error (e, fs')) : fs' = fs := by
  rw [runTestsStep_unfold] at h
  split at h
  · split at h
    · rw [Except.error.injEq, Prod.mk.injEq] at h
      exact h.2.symm
    · cases h
  · cases h

lemma runMain_ok_root_mem {cli : Option String} {cfg : Config} {fs fs' : FS}
    (h : runMain cli cfg fs = .ok fs') : computeRoot cfg ∈ fs'.dirs := by
  rw [runMain_unfold] at h
  split at h
  · cases h
  · dsimp only at h
    split at h
    · cases h
    · obtain ⟨m, hlibs, htest⟩ := except_bind_ok_inv h
      have h1 : computeRoot cfg ∈ m.dirs := by
        apply (runLibs_ok_mono _ hlibs).1
        apply List.mem_cons_of_mem
        rw [writeExeSources_dirs]
        exact List.mem_cons_self _ _
      exact (runTestsStep_ok_mono htest).1 h1

lemma runMain_err_fs {cli : Option String} {cfg : Config} {fs fs' : FS} {e : RunError}
    (h : runMain cli cfg fs = .error (e, fs')) :
    fs' = fs ∨ computeRoot cfg ∈ fs'.dirs := by
  rw [runMain_unfold] at h
  split at h
  · rw [Except.error.injEq, Prod.mk.injEq] at h
    exact Or.inl h.2.symm
  · dsimp only at h
    split at h
    · rw [Except.error.injEq, Prod.mk.injEq] at h
      right
      rw [← h.2, writeExeSources_dirs]
      exact List.mem_cons_self _ _
    · rcases except_bind_error_inv h with h1 | ⟨m, hlibs, htest⟩
      · right
        apply (runLibs_err_mono _ h1).1
        apply List.mem_cons_of_mem
        rw [writeExeSources_dirs]
        exact List.mem_cons_self _ _
      · right
        rw [runTestsStep_err_fs htest]
        apply (runLibs_ok_mono _ hlibs).1
        apply List.mem_cons_of_mem
        rw [writeExeSources_dirs]
        exact List.mem_cons_self _ _

lemma runMain_rootExists {cli : Option String} {cfg : Config} {fs : FS}
    (h : fs.pathExists (computeRoot cfg) = true) :
    runMain cli cfg fs = .error (.rootExists (computeRoot cfg), fs) := by
  rw [runMain_unfold, h]
  simp

/-! ### Recognizing the generated manifest lines by their leading text -/

lemma isPrefixOf_append_stop {p a : List Char} (b : List Char)
    (h1 : a.isPrefixOf p = false) (h2 : p.isPrefixOf a = false) :
    p.isPrefixOf (a ++ b) = false := by
  induction p generalizing a with
  | nil => simp [List.isPrefixOf] at h2
  | cons c cs ih =>
    cases a with
    | nil => simp [List.isPrefixOf] at h1
    | cons d ds =>
      by_cases hcd : c = d
      · subst hcd
        simp only [List.isPrefixOf, beq_self_eq_true, Bool.true_and] at h1 h2 ⊢
        exact ih h1 h2
      · rw [List.cons_append]
        simp [List.isPrefixOf, hcd]

lemma isPrefixOf_self_append (p b : List Char) : p.isPrefixOf (p ++ b) = true := by
  induction p with
  | nil => simp [List.isPrefixOf]
  | cons c cs ih => simp [List.isPrefixOf, ih]

/-- A line starting with the fixed text `a` does not start with `pre` when
the two fixed texts diverge. -/
lemma strStartsWith_concat_false (a rest pre : String)
    (h1 : a.data.isPrefixOf pre.data = false) (h2 : pre.data.isPrefixOf a.data = false) :
    strStartsWith (a ++ rest) pre = false := by
  unfold strStartsWith
  rw [String.data_append]
  exact isPrefixOf_append_stop _ h1 h2

lemma strStartsWith_concat_true (pre rest : String) :
    strStartsWith (pre ++ rest) pre = true := by
  unfold strStartsWith
  rw [String.data_append]
  exact isPrefixOf_self_append _ _

lemma filter_header_sub (cfg : Config) :
    (mainHeaderLines cfg).filter
      (fun l => strStartsWith l "add_subdirectory(lib/") = [] := by
  rw [List.filter_eq_nil_iff]
  intro l hl
  simp only [mainHeaderLines, List.mem_cons, List.not_mem_nil, or_false] at hl
  rcases hl with rfl|rfl|rfl|rfl|rfl|rfl|rfl|rfl|rfl|rfl|rfl|rfl|rfl|rfl|rfl|rfl|rfl|rfl|rfl|rfl|rfl|rfl|rfl|rfl|rfl|rfl <;>
    simp only [Bool.not_eq_true, String.append_assoc] <;>
    first
      | decide
      | exact strStartsWith_concat_false _ _ _ (by decide) (by decide)

lemma filter_header_exe (cfg : Config) :
    (mainHeaderLines cfg).filter
      (fun l => strStartsWith l "add_executable(") = [] := by
  rw [List.filter_eq_nil_iff]
  intro l hl
  simp only [mainHeaderLines, List.mem_cons, List.not_mem_nil, or_false] at hl
  rcases hl with rfl|rfl|rfl|rfl|rfl|rfl|rfl|rfl|rfl|rfl|rfl|rfl|rfl|rfl|rfl|rfl|rfl|rfl|rfl|rfl|rfl|rfl|rfl|rfl|rfl|rfl <;>
    simp only [Bool.not_eq_true, String.append_assoc] <;>
    first
      | decide
      | exact strStartsWith_concat_false _ _ _ (by decide) (by decide)

lemma filter_exeBlock_sub (exe : Executable) :
    (exeBlockLines exe).filter
      (fun l => strStartsWith l "add_subdirectory(lib/") = [] := by
  rw [List.filter_eq_nil_iff]
  intro l hl
  rw [exeBlockLines] at hl
  by_cases hd : exe.dependencies.getD [] ≠ []
  · rw [if_pos hd] at hl
    simp only [List.cons_append, List.nil_append, List.mem_cons, List.not_mem_nil,
      or_false] at hl
    rcases hl with rfl|rfl|rfl|rfl|rfl|rfl <;>
      simp only [Bool.not_eq_true, String.append_assoc] <;>
      first
        | decide
        | exact strStartsWith_concat_false _ _ _ (by decide) (by decide)
  · rw [if_neg hd] at hl
    simp only [List.cons_append, List.nil_append, List.mem_cons, List.not_mem_nil,
      or_false] at hl
    rcases hl with rfl|rfl|rfl|rfl|rfl <;>
      simp only [Bool.not_eq_true, String.append_assoc] <;>
      first
        | decide
        | exact strStartsWith_concat_false _ _ _ (by decide) (by decide)

lemma filter_exeBlock_exe (exe : Executable) :
    (exeBlockLines exe).filter (fun l => strStartsWith l "add_executable(")
      = ["add_executable(" ++ exe.name ++ " " ++ String.intercalate " " exe.sources ++ ")"] := by
  rw [exeBlockLines]
  by_cases hd : exe.dependencies.getD [] ≠ []
  · rw [if_pos hd]
    simp only [List.cons_append, List.nil_append]
    rw [List.filter_cons_of_pos (by
      simp only [String.append_assoc]
      exact strStartsWith_concat_true _ _)]
    rw [List.filter_eq_nil_iff.mpr ?_]
    · intro l hl
      simp only [List.mem_cons, List.not_mem_nil, or_false] at hl
      rcases hl with rfl|rfl|rfl|rfl|rfl <;>
        simp only [Bool.not_eq_true, String.append_assoc] <;>
        first
          | decide
          | exact strStartsWith_concat_false _ _ _ (by decide) (by decide)
  · rw [if_neg hd]
    simp only [List.cons_append, List.nil_append]
    rw [List.filter_cons_of_pos (by
      simp only [String.append_assoc]
      exact strStartsWith_concat_true _ _)]
    rw [List.filter_eq_nil_iff.mpr ?_]
    · intro l hl
      simp only [List.mem_cons, List.not_mem_nil, or_false] at hl
      rcases hl with rfl|rfl|rfl|rfl <;>
        simp only [Bool.not_eq_true, String.append_assoc] <;>
        first
          | decide
          | exact strStartsWith_concat_false _ _ _ (by decide) (by decide)

lemma flatten_map_singleton {α β : Type} (l : List α) (g : α → β) :
    (l.map (fun x => [g x])).flatten = l.map g := by
  induction l with
  | nil => rfl
  | cons a as ih => simp only [List.map_cons, List.flatten_cons, ih, List.singleton_append]

lemma filter_mainCmake_sub (cfg : Config) :
    (mainCmakeLines cfg).filter (fun l => strStartsWith l "add_subdirectory(lib/")
      = cfg.libraries.map (fun lib => "add_subdirectory(lib/" ++ lib.name ++ ")") := by
  rw [mainCmakeLines]
  rw [List.filter_append, List.filter_append, List.filter_append, List.filter_append,
    List.filter_append]
  rw [filter_header_sub]
  rw [List.filter_map]
  rw [List.filter_eq_self.mpr (fun lib _ => by
    show strStartsWith ("add_subdirectory(lib/" ++ lib.name ++ ")") _ = true
    rw [String.append_assoc]
    exact strStartsWith_concat_true _ _)]
  rw [show (["", "# Add executables"].filter
    (fun l => strStartsWith l "add_subdirectory(lib/")) = [] from by decide]
  rw [List.filter_flatten, List.map_map]
  rw [List.flatten_eq_nil_iff.mpr (fun x hx => by
    rw [List.mem_map] at hx
    obtain ⟨e, _, rfl⟩ := hx
    exact filter_exeBlock_sub e)]
  rw [show ((if cfg.enableTests.getD true then testsSectionLines else []).filter
    (fun l => strStartsWith l "add_subdirectory(lib/")) = [] from by
      split
      · decide
      · decide]
  rw [show ([""].filter (fun l => strStartsWith l "add_subdirectory(lib/")) = [] from by decide]
  simp

lemma filter_mainCmake_exe (cfg : Config) :
    (mainCmakeLines cfg).filter (fun l => strStartsWith l "add_executable(")
      = cfg.executables.map (fun exe =>
          "add_executable(" ++ exe.name ++ " " ++ String.intercalate " " exe.sources ++ ")") := by
  rw [mainCmakeLines]
  rw [List.filter_append, List.filter_append, List.filter_append, List.filter_append,
    List.filter_append]
  rw [filter_header_exe]
  rw [List.filter_map]
  rw [List.filter_eq_nil_iff.mpr (fun lib _ => by
    show ¬ strStartsWith ("add_subdirectory(lib/" ++ lib.name ++ ")") _ = true
    rw [Bool.not_eq_true, String.append_assoc]
    exact strStartsWith_concat_false _ _ _ (by decide) (by decide))]
  rw [show (["", "# Add executables"].filter
    (fun l => strStartsWith l "add_executable(")) = [] from by decide]
  rw [List.filter_flatten, List.map_map]
  rw [show (cfg.executables.map
      ((fun l => List.filter (fun l => strStartsWith l "add_executable(") l) ∘ exeBlockLines))
      = cfg.executables.map (fun exe => ["add_executable(" ++ exe.name ++ " "
          ++ String.intercalate " " exe.sources ++ ")"]) from
    List.map_congr_left (fun e _ => filter_exeBlock_exe e)]
  rw [flatten_map_singleton]
  rw [show ((if cfg.enableTests.getD true then testsSectionLines else []).filter
    (fun l => strStartsWith l "add_executable(")) = [] from by
      split
      · decide
      · decide]
  rw [show ([""].filter (fun l => strStartsWith l "add_executable(")) = [] from by decide]
  simp

/-- C3: for a configuration with N libraries and M executables, the root
manifest has exactly the N lines `add_subdirectory(lib/<name>)`, one per
library in declaration order, and exactly the M target-definition lines
`add_executable(<name> <sources>)`, one per executable in declaration
order. -/
theorem claim_C3 (cfg : Config) :
    (mainCmakeLines cfg).filter (fun l => strStartsWith l "add_subdirectory(lib/")
        = cfg.libraries.map (fun lib => "add_subdirectory(lib/" ++ lib.name ++ ")") ∧
    (mainCmakeLines cfg).filter (fun l => strStartsWith l "add_executable(")
        = cfg.executables.map (fun exe =>
            "add_executable(" ++ exe.name ++ " " ++ String.intercalate " " exe.sources ++ ")") ∧
    ((mainCmakeLines cfg).filter
        (fun l => strStartsWith l "add_subdirectory(lib/")).length = cfg.libraries.length ∧
    ((mainCmakeLines cfg).filter
        (fun l => strStartsWith l "add_executable(")).length = cfg.executables.length := by
  refine ⟨filter_mainCmake_sub cfg, filter_mainCmake_exe cfg, ?_, ?_⟩
  · rw [filter_mainCmake_sub, List.length_map]
  · rw [filter_mainCmake_exe, List.length_map]

/-! ### Example configurations used to instantiate the theorems -/

/-- The demo configuration of the spec scenario, with `enableTests` set. -/
def demoConfig : Config :=
  { projectName := "demo", cStandard := "11", cppStandard := "17"
  , libraries := [{ name := "foo", sources := ["foo.c"], headers := ["foo.h"] }]
  , executables := [{ name := "app", sources := ["main.c"], dependencies := some ["foo"] }]
  , enableTests := some true }

/-- A small configuration whose `enableTests` key is absent. -/
def cfgNoTests : Config :=
  { projectName := "demo", cStandard := "11", cppStandard := "17"
  , libraries := [{ name := "foo", sources := ["foo.c"], headers := ["foo.h"] }]
  , executables := [{ name := "app", sources := ["main.c"], dependencies := some ["foo"] }] }

/-! ### The claims -/

/-- C1: when the `enableTests` key is absent, the generated root manifest
still contains the tests-subdirectory inclusion line (the manifest default
is enabled), while the run never creates the `tests` directory (the
creation default is disabled). -/
theorem claim_C1 (cfg : Config) (h : cfg.enableTests = none) :
    "add_subdirectory(tests)" ∈ mainCmakeLines cfg ∧
    ∀ (cli : Option String) (fs fs' : FS), runMain cli cfg fs = .ok fs' →
      computeRoot cfg ++ ["tests"] ∈ fs'.dirs → computeRoot cfg ++ ["tests"] ∈ fs.dirs := by
  constructor
  · rw [mainCmakeLines, h]
    simp [testsSectionLines]
  · intro cli fs fs' hrun htests
    rw [runMain_unfold] at hrun
    split at hrun
    · cases hrun
    · dsimp only at hrun
      split at hrun
      · cases hrun
      · obtain ⟨m, hlibs, htest⟩ := except_bind_ok_inv hrun
        have hflag : cfg.enableTests.getD false = false := by
          rw [h]
          rfl
        rw [runTestsStep_no_tests hflag, Except.ok.injEq] at htest
        subst htest
        rcases runLibs_ok_dirs_sub _ hlibs _ htests with h1 | ⟨lib, _, h1 | h1⟩
        · rcases List.mem_cons.mp h1 with h2 | h2
          · simp at h2
          · rw [writeExeSources_dirs] at h2
            rcases List.mem_cons.mp h2 with h3 | h3
            · simp at h3
            · rcases List.mem_append.mp h3 with h4 | h4
              · have h5 := strictPrefixes_length_lt h4
                simp only [List.length_append, List.length_cons, List.length_nil] at h5
                omega
              · exact h4
        · simp [List.append_assoc] at h1
        · simp [List.append_assoc] at h1

theorem claim_C1_witness :
    cfgNoTests.enableTests = none ∧
    "add_subdirectory(tests)" ∈ mainCmakeLines cfgNoTests ∧
    ∃ fs', runMain none cfgNoTests FS.empty = .ok fs' ∧
      computeRoot cfgNoTests ++ ["tests"] ∉ fs'.dirs := by
  refine ⟨rfl, (claim_C1 cfgNoTests rfl).1, ⟨_, rfl, fun hmem => ?_⟩⟩
  have h2 := (claim_C1 cfgNoTests rfl).2 none FS.empty _ rfl hmem
  simp [FS.empty] at h2

/-- C2: when the computed root already exists (as a directory or a file),
the run aborts with the root-exists error naming that path and the
filesystem is returned unchanged; the printed message contains the path. -/
theorem claim_C2 (cli : Option String) (cfg : Config) (fs : FS)
    (h : fs.pathExists (computeRoot cfg) = true) :
    runMain cli cfg fs = .error (.rootExists (computeRoot cfg), fs) ∧
    containsSubstring (rootExistsMessage (computeRoot cfg))
      (Path.render (computeRoot cfg)) := by
  refine ⟨runMain_rootExists h, "Error: Directory " ++ sq, sq ++ " already exists.", ?_⟩
  rw [rootExistsMessage]
  simp [String.append_assoc]

theorem claim_C2_witness :
    FS.pathExists ⟨[["demo"]], []⟩ (computeRoot demoConfig) = true ∧
    runMain none demoConfig ⟨[["demo"]], []⟩
      = .error (.rootExists (computeRoot demoConfig), ⟨[["demo"]], []⟩) ∧
    containsSubstring (rootExistsMessage (computeRoot demoConfig))
      (Path.render (computeRoot demoConfig)) :=
  ⟨by decide, claim_C2 none demoConfig ⟨[["demo"]], []⟩ (by decide)⟩

/-- C7: the optional positional CLI argument is parsed but never consulted;
two runs that differ only in it behave identically, both at the
materializer and at the whole-program level. -/
theorem claim_C7 (a b : Option String) (cfg : Config) (fs : FS)
    (load : Except LoadError Config) :
    runMain a cfg fs = runMain b cfg fs ∧ mainEntry load a fs = mainEntry load b fs :=
  ⟨rfl, rfl⟩

/-- C8: a failed configuration load terminates the program with the
filesystem untouched; the not-found message names the resolved template
path, and the parse-error message names the path and the error location
(line, column). -/
theorem claim_C8 (e : LoadError) (cli : Option String) (fs : FS) (scriptDir : Path)
    (d : JsonDecodeError) :
    mainEntry (.error e) cli fs = .error (.load e, fs) ∧
    containsSubstring
      (loadErrorMessage (Path.render (templatePathOf scriptDir)) .fileNotFound)
      (Path.render (templatePathOf scriptDir)) ∧
    containsSubstring
      (loadErrorMessage (Path.render (templatePathOf scriptDir)) (.jsonDecode d))
      (Path.render (templatePathOf scriptDir)) ∧
    containsSubstring
      (loadErrorMessage (Path.render (templatePathOf scriptDir)) (.jsonDecode d))
      (toString d.lineno) ∧
    containsSubstring
      (loadErrorMessage (Path.render (templatePathOf scriptDir)) (.jsonDecode d))
      (toString d.colno) := by
  refine ⟨rfl,
    ⟨"Error: " ++ sq, sq ++ " not found.", ?_⟩,
    ⟨"Error decoding JSON from " ++ sq, sq ++ ": " ++ renderJsonError d, ?_⟩,
    ⟨"Error decoding JSON from " ++ sq ++ Path.render (templatePathOf scriptDir) ++ sq
      ++ ": " ++ d.msg ++ ": line ",
     " column " ++ toString d.colno ++ " (char " ++ toString d.pos ++ ")", ?_⟩,
    ⟨"Error decoding JSON from " ++ sq ++ Path.render (templatePathOf scriptDir) ++ sq
      ++ ": " ++ d.msg ++ ": line " ++ toString d.lineno ++ " column ",
     " (char " ++ toString d.pos ++ ")", ?_⟩⟩
  · rw [loadErrorMessage]
    simp [String.append_assoc]
  · rw [loadErrorMessage]
    simp [String.append_assoc]
  · rw [loadErrorMessage, renderJsonError]
    simp [String.append_assoc]
  · rw [loadErrorMessage, renderJsonError]
    simp [String.append_assoc]

lemma filter_exeBlock_link (exe : Executable) :
    (exeBlockLines exe).filter (fun l => strStartsWith l "target_link_libraries(")
      = if exe.dependencies.getD [] ≠ [] then
          ["target_link_libraries(" ++ exe.name ++ " PRIVATE "
            ++ String.intercalate " " (exe.dependencies.getD []) ++ ")"]
        else [] := by
  rw [exeBlockLines]
  by_cases hd : exe.dependencies.getD [] ≠ []
  · rw [if_pos hd]
    simp only [List.cons_append, List.nil_append]
    rw [List.filter_cons_of_neg (by
      simp only [Bool.not_eq_true, String.append_assoc]
      exact strStartsWith_concat_false _ _ _ (by decide) (by decide))]
    rw [List.filter_cons_of_pos (by
      simp only [String.append_assoc]
      exact strStartsWith_concat_true _ _)]
    rw [List.filter_eq_nil_iff.mpr ?_]
    · intro l hl
      simp only [List.mem_cons, List.not_mem_nil, or_false] at hl
      rcases hl with rfl|rfl|rfl|rfl <;>
        simp only [Bool.not_eq_true, String.append_assoc] <;>
        first
          | decide
          | exact strStartsWith_concat_false _ _ _ (by decide) (by decide)
  · rw [if_neg hd]
    simp only [List.cons_append, List.nil_append]
    rw [List.filter_eq_nil_iff]
    intro l hl
    simp only [List.mem_cons, List.not_mem_nil, or_false] at hl
    rcases hl with rfl|rfl|rfl|rfl|rfl <;>
      simp only [Bool.not_eq_true, String.append_assoc] <;>
      first
        | decide
        | exact strStartsWith_concat_false _ _ _ (by decide) (by decide)

/-- C9: an absent `dependencies` key and an explicit empty list produce
identical root manifests, and an executable's block carries a
dependency-linking line exactly when the key is present and non-empty. -/
theorem claim_C9 (cfg : Config) (exe : Executable) (pre post : List Executable)
    (h : cfg.executables
      = pre ++ ({ exe with dependencies := none } : Executable) :: post) :
    mainCmakeLines cfg = mainCmakeLines { cfg with
      executables := pre ++ ({ exe with dependencies := some [] } : Executable) :: post } ∧
    ∀ e2 : Executable,
      ((∃ l ∈ exeBlockLines e2, strStartsWith l "target_link_libraries(" = true) ↔
        ∃ ds, e2.dependencies = some ds ∧ ds ≠ []) := by
  have hblock : exeBlockLines { exe with dependencies := none }
      = exeBlockLines { exe with dependencies := some [] } := by
    rw [exeBlockLines, exeBlockLines]
    simp
  constructor
  · rw [mainCmakeLines, mainCmakeLines, h]
    dsimp only
    rw [List.map_append, List.map_cons, List.map_append, List.map_cons, hblock]
    rfl
  · intro e2
    have hf := filter_exeBlock_link e2
    constructor
    · rintro ⟨l, hl, hsw⟩
      have hmem : l ∈ (exeBlockLines e2).filter
          (fun l => strStartsWith l "target_link_libraries(") :=
        List.mem_filter.mpr ⟨hl, hsw⟩
      rw [hf] at hmem
      by_cases hd : e2.dependencies.getD [] ≠ []
      · rcases he : e2.dependencies with _ | ds
        · rw [he] at hd
          simp at hd
        · refine ⟨ds, rfl, ?_⟩
          rw [he] at hd
          simpa using hd
      · rw [if_neg hd] at hmem
        exact absurd hmem (List.not_mem_nil l)
    · rintro ⟨ds, hds, hne⟩
      have hd : e2.dependencies.getD [] ≠ [] := by
        rw [hds]
        simpa using hne
      refine ⟨"target_link_libraries(" ++ e2.name ++ " PRIVATE "
        ++ String.intercalate " " (e2.dependencies.getD []) ++ ")", ?_, ?_⟩
      · have hmem : "target_link_libraries(" ++ e2.name ++ " PRIVATE "
            ++ String.intercalate " " (e2.dependencies.getD []) ++ ")"
            ∈ (exeBlockLines e2).filter
              (fun l => strStartsWith l "target_link_libraries(") := by
          rw [hf, if_pos hd]
          exact List.mem_singleton.mpr rfl
        exact (List.mem_filter.mp hmem).1
      · simp only [String.append_assoc]
        exact strStartsWith_concat_true _ _

/-- The executable entry of the C9 witness configuration. -/
def exeApp : Executable := { name := "app", sources := ["main.c"] }

/-- A configuration whose only executable has no `dependencies` key. -/
def cfgC9n : Config :=
  { projectName := "demo", cStandard := "11", cppStandard := "17"
  , libraries := [], executables := [exeApp] }

theorem claim_C9_witness :
    cfgC9n.executables = [] ++ ({ exeApp with dependencies := none } : Executable) :: [] ∧
    mainCmakeLines cfgC9n = mainCmakeLines { cfgC9n with executables
      := [] ++ ({ exeApp with dependencies := some [] } : Executable) :: [] } :=
  ⟨rfl, (claim_C9 cfgC9n exeApp [] [] rfl).1⟩

/-- C4: after any run that created the root (a success, or a failure that
changed the filesystem — the root is created before any file is written),
rerunning against the same location fails with the already-exists
condition and performs no writes. -/
theorem claim_C4 (cli cli2 : Option String) (cfg : Config) (fs fs' : FS)
    (h : runMain cli cfg fs = .ok fs' ∨
      ∃ e, runMain cli cfg fs = .error (e, fs') ∧ fs' ≠ fs) :
    runMain cli2 cfg fs' = .error (.rootExists (computeRoot cfg), fs') := by
  have hmem : computeRoot cfg ∈ fs'.dirs := by
    rcases h with h | ⟨e, h, hne⟩
    · exact runMain_ok_root_mem h
    · rcases runMain_err_fs h with h1 | h1
      · exact absurd h1 hne
      · exact h1
  apply runMain_rootExists
  rw [pathExists_iff]
  exact Or.inl hmem

theorem claim_C4_witness :
    ∃ fs', runMain none demoConfig FS.empty = .ok fs' ∧
      runMain none demoConfig fs'
        = .error (.rootExists (computeRoot demoConfig), fs') :=
  ⟨_, rfl, claim_C4 none none demoConfig FS.empty _ (Or.inl rfl)⟩

/-! ### Reads of the files each step leaves behind -/

lemma read_dirs_irrel (d : List Path) (fs : FS) (q : Path) :
    (FS.mk d fs.files).read q = fs.read q := rfl

lemma containsSubstring_of_between {s t : String} (h : t.data <:+: s.data) :
    containsSubstring s t := by
  obtain ⟨a, b, hab⟩ := h
  refine ⟨String.mk a, String.mk b, ?_⟩
  apply String.ext
  rw [String.data_append, String.data_append]
  rw [← hab]

lemma runLibs_append (root : Path) (A B : List Library) (fs : FS) :
    runLibs root (A ++ B) fs = (runLibs root A fs) >>= runLibs root B := by
  rw [runLibs, List.foldlM_append]
  rfl

lemma writeExeSources_read_isSome (root : Path) (exes : List Executable) (fs : FS) :
    ∀ exe ∈ exes, ∀ s ∈ exe.sources,
      ((writeExeSources root exes fs).read (root ++ [s])).isSome = true := by
  induction exes generalizing fs with
  | nil => simp
  | cons e es ih =>
    intro exe hexe s hs
    rcases List.mem_cons.mp hexe with rfl | hexe2
    · apply read_isSome_of_files_subset (writeExeSources_files_mono root es _)
      rw [foldl_write_read_const, if_pos (List.mem_map_of_mem _ hs)]
      rfl
    · exact ih _ exe hexe2 s hs

lemma runLib_ok_own_reads {root : Path} {fs fs' : FS} {lib : Library}
    (h : runLib root fs lib = .ok fs') :
    (fs'.read (root ++ ["lib", lib.name] ++ ["CMakeLists.txt"])).isSome = true ∧
    (∀ s ∈ lib.sources,
      (fs'.read (root ++ ["lib", lib.name] ++ [s])).isSome = true) ∧
    (∀ hh ∈ lib.headers,
      (fs'.read (root ++ ["lib", lib.name] ++ ["include", hh])).isSome = true) := by
  rw [runLib_unfold] at h
  split at h
  · cases h
  · dsimp only at h
    split at h
    · cases h
    · rw [Except.ok.injEq] at h
      subst h
      refine ⟨?_, ?_, ?_⟩
      · apply read_isSome_of_files_subset (foldl_write_files_mono _ _ lib.headers _)
        rw [read_dirs_irrel, foldl_write_read_const]
        split
        · rfl
        · rw [read_writeFile_self]
          rfl
      · intro s hs
        apply read_isSome_of_files_subset (foldl_write_files_mono _ _ lib.headers _)
        rw [read_dirs_irrel, foldl_write_read_const, if_pos (List.mem_map_of_mem _ hs)]
        rfl
      · intro hh hhh
        rw [foldl_write_read_const, if_pos (List.mem_map_of_mem _ hhh)]
        rfl

lemma runLib_ok_header_reads {root : Path} {fs fs' : FS} {lib : Library}
    (h : runLib root fs lib = .ok fs') :
    ∀ hdr ∈ lib.headers,
      fs'.read (root ++ ["lib", lib.name] ++ ["include", hdr])
        = some (headerFileContent lib.name) := by
  rw [runLib_unfold] at h
  split at h
  · cases h
  · dsimp only at h
    split at h
    · cases h
    · rw [Except.ok.injEq] at h
      subst h
      intro hdr hh
      rw [foldl_write_read_const, if_pos (List.mem_map_of_mem _ hh)]

lemma runLib_ok_read_preserve {root : Path} {fs fs' : FS} {lib : Library} {q : Path}
    (h : runLib root fs lib = .ok fs')
    (hq : ∀ y, q ≠ root ++ ["lib", lib.name] ++ [y])
    (hq2 : ∀ y, q ≠ root ++ ["lib", lib.name] ++ ["include", y]) :
    fs'.read q = fs.read q := by
  rw [runLib_unfold] at h
  split at h
  · cases h
  · dsimp only at h
    split at h
    · cases h
    · rw [Except.ok.injEq] at h
      subst h
      rw [foldl_write_read_const, if_neg (fun hmem => by
        rw [List.mem_map] at hmem
        obtain ⟨y, _, hy⟩ := hmem
        exact hq2 y hy.symm)]
      rw [read_dirs_irrel]
      rw [foldl_write_read_const, if_neg (fun hmem => by
        rw [List.mem_map] at hmem
        obtain ⟨y, _, hy⟩ := hmem
        exact hq y hy.symm)]
      rw [read_writeFile_ne _ _ (hq "CMakeLists.txt")]
      rfl

lemma runLibs_ok_lib_reads {root : Path} (libs : List Library) : ∀ {fs fs' : FS},
    runLibs root libs fs = .ok fs' → ∀ lb ∈ libs,
    (fs'.read (root ++ ["lib", lb.name] ++ ["CMakeLists.txt"])).isSome = true ∧
    (∀ s ∈ lb.sources,
      (fs'.read (root ++ ["lib", lb.name] ++ [s])).isSome = true) ∧
    (∀ hh ∈ lb.headers,
      (fs'.read (root ++ ["lib", lb.name] ++ ["include", hh])).isSome = true) := by
  induction libs with
  | nil =>
    intro fs fs' _ lb hlb
    exact absurd hlb (List.not_mem_nil lb)
  | cons a as ih =>
    intro fs fs' h lb hlb
    rw [runLibs_cons] at h
    obtain ⟨m, ha, hrest⟩ := except_bind_ok_inv h
    rcases List.mem_cons.mp hlb with rfl | hlb2
    · have hr := runLib_ok_own_reads ha
      have hmono := (runLibs_ok_mono as hrest).2
      exact ⟨read_isSome_of_files_subset hmono _ hr.1,
        fun s hs => read_isSome_of_files_subset hmono _ (hr.2.1 s hs),
        fun hh hhh => read_isSome_of_files_subset hmono _ (hr.2.2 hh hhh)⟩
    · exact ih hrest lb hlb2

lemma runLibs_ok_read_preserve {root : Path} (libs : List Library) :
    ∀ {fs fs' : FS} {q : Path}, runLibs root libs fs = .ok fs' →
    (∀ lib ∈ libs, (∀ y, q ≠ root ++ ["lib", lib.name] ++ [y]) ∧
      (∀ y, q ≠ root ++ ["lib", lib.name] ++ ["include", y])) →
    fs'.read q = fs.read q := by
  induction libs with
  | nil =>
    intro fs fs' q h _
    rw [runLibs_nil, Except.ok.injEq] at h
    subst h
    rfl
  | cons a as ih =>
    intro fs fs' q h hq
    rw [runLibs_cons] at h
    obtain ⟨m, ha, hrest⟩ := except_bind_ok_inv h
    rw [ih hrest (fun lib hl => hq lib (List.mem_cons_of_mem _ hl))]
    exact runLib_ok_read_preserve ha (hq a (List.mem_cons_self a as)).1
      (hq a (List.mem_cons_self a as)).2

lemma runTestsStep_ok_read_preserve {root : Path} {cfg : Config} {fs fs' : FS} {q : Path}
    (h : runTestsStep root cfg fs = .ok fs')
    (hq : ∀ y, q ≠ root ++ ["tests", y]) : fs'.read q = fs.read q := by
  rw [runTestsStep_unfold] at h
  split at h
  · split at h
    · cases h
    · rw [Except.ok.injEq] at h
      subst h
      rw [read_writeFile_ne _ _ (hq "test_foo.cpp"), read_writeFile_ne _ _ (hq "CMakeLists.txt")]
      rfl
  · rw [Except.ok.injEq] at h
    subst h
    rfl

lemma runMain_ok_tests_reads {cli : Option String} {cfg : Config} {fs fs' : FS}
    (hflag : cfg.enableTests.getD false = true)
    (h : runMain cli cfg fs = .ok fs') :
    fs'.read (computeRoot cfg ++ ["tests", "CMakeLists.txt"]) = some testsCMakeContent ∧
    fs'.read (computeRoot cfg ++ ["tests", "test_foo.cpp"]) = some testFooCppContent := by
  rw [runMain_unfold] at h
  split at h
  · cases h
  · dsimp only at h
    split at h
    · cases h
    · obtain ⟨m, hlibs, htest⟩ := except_bind_ok_inv h
      rw [runTestsStep_unfold, hflag, if_pos rfl] at htest
      split at htest
      · cases htest
      · rw [Except.ok.injEq] at htest
        subst htest
        constructor
        · rw [read_writeFile_ne _ _ (by simp), read_writeFile_self]
        · rw [read_writeFile_self]

/-- C5: in a completed run, every header file of a library holds content
generated from the library name alone: its include guard is the uppercased
library name followed by `_H`, whatever filename the header has; hence all
headers of one library share one guard. -/
theorem claim_C5 (cli : Option String) (cfg : Config) (fs fs' : FS) (lib : Library)
    (hnd : (cfg.libraries.map Library.name).Nodup)
    (hrun : runMain cli cfg fs = .ok fs')
    (hlib : lib ∈ cfg.libraries) :
    ∀ hdr ∈ lib.headers,
      fs'.read (computeRoot cfg ++ ["lib", lib.name] ++ ["include", hdr])
        = some (mkHeaderContent (lib.name.toUpper ++ "_H") lib.name) := by
  intro hdr hhdr
  rw [runMain_unfold] at hrun
  split at hrun
  · cases hrun
  · dsimp only at hrun
    split at hrun
    · cases hrun
    · obtain ⟨m, hlibs, htest⟩ := except_bind_ok_inv hrun
      have hpres : fs'.read (computeRoot cfg ++ ["lib", lib.name] ++ ["include", hdr])
          = m.read (computeRoot cfg ++ ["lib", lib.name] ++ ["include", hdr]) := by
        refine runTestsStep_ok_read_preserve htest ?_
        intro y
        simp [List.append_assoc]
      rw [hpres]
      obtain ⟨pre, post, hsplit⟩ := List.append_of_mem hlib
      rw [hsplit, runLibs_append] at hlibs
      obtain ⟨m1, hpre, hrest⟩ := except_bind_ok_inv hlibs
      rw [runLibs_cons] at hrest
      obtain ⟨m2, hl, hpost⟩ := except_bind_ok_inv hrest
      have hnd2 : (lib.name :: post.map Library.name).Nodup := by
        rw [hsplit, List.map_append, List.map_cons] at hnd
        exact hnd.of_append_right
      have hnotin : lib.name ∉ post.map Library.name := (List.nodup_cons.mp hnd2).1
      rw [runLibs_ok_read_preserve post hpost ?_]
      · exact runLib_ok_header_reads hl hdr hhdr
      · intro l2 hl2
        constructor
        · intro y heq
          simp [List.append_assoc] at heq
        · intro y heq
          simp only [List.append_assoc, List.cons_append, List.nil_append,
            List.append_right_inj, List.cons.injEq, and_true, true_and] at heq
          apply hnotin
          rw [heq.1]
          exact List.mem_map_of_mem Library.name hl2

theorem claim_C5_witness :
    (demoConfig.libraries.map Library.name).Nodup ∧
    ∃ fs', runMain none demoConfig FS.empty = .ok fs' ∧
      fs'.read (computeRoot demoConfig ++ ["lib", "foo"] ++ ["include", "foo.h"])
        = some (mkHeaderContent ("foo".toUpper ++ "_H") "foo") :=
  ⟨by decide, _, rfl,
    claim_C5 none demoConfig FS.empty _
      { name := "foo", sources := ["foo.c"], headers := ["foo.h"] }
      (by decide) rfl (by decide) "foo.h" (by decide)⟩

set_option maxRecDepth 100000 in
/-- C6: whenever a run creates the tests directory its two files hold fixed
constants: the manifest pins the framework at v1.14.0, builds `run_tests`
from `test_foo.cpp` alone and links it against the framework and a library
literally named `foo`; two runs that both create the tests directory have
byte-identical tests files. -/
theorem claim_C6 (cli₁ cli₂ : Option String) (cfg₁ cfg₂ : Config) (fs₁ fs₂ g₁ g₂ : FS)
    (hf₁ : cfg₁.enableTests.getD false = true) (hf₂ : cfg₂.enableTests.getD false = true)
    (h₁ : runMain cli₁ cfg₁ fs₁ = .ok g₁) (h₂ : runMain cli₂ cfg₂ fs₂ = .ok g₂) :
    g₁.read (computeRoot cfg₁ ++ ["tests", "CMakeLists.txt"]) = some testsCMakeContent ∧
    g₁.read (computeRoot cfg₁ ++ ["tests", "test_foo.cpp"]) = some testFooCppContent ∧
    g₁.read (computeRoot cfg₁ ++ ["tests", "CMakeLists.txt"])
      = g₂.read (computeRoot cfg₂ ++ ["tests", "CMakeLists.txt"]) ∧
    g₁.read (computeRoot cfg₁ ++ ["tests", "test_foo.cpp"])
      = g₂.read (computeRoot cfg₂ ++ ["tests", "test_foo.cpp"]) ∧
    containsSubstring testsCMakeContent "v1.14.0" ∧
    containsSubstring testsCMakeContent "add_executable(run_tests test_foo.cpp)" ∧
    containsSubstring testsCMakeContent
      "target_link_libraries(run_tests PRIVATE GTest::gtest_main foo)" := by
  obtain ⟨r1, r2⟩ := runMain_ok_tests_reads hf₁ h₁
  obtain ⟨s1, s2⟩ := runMain_ok_tests_reads hf₂ h₂
  refine ⟨r1, r2, by rw [r1, s1], by rw [r2, s2],
    containsSubstring_of_between (by decide),
    containsSubstring_of_between (by decide),
    containsSubstring_of_between (by decide)⟩

theorem claim_C6_witness :
    demoConfig.enableTests.getD false = true ∧
    ∃ g, runMain none demoConfig FS.empty = .ok g ∧
      g.read (computeRoot demoConfig ++ ["tests", "CMakeLists.txt"])
        = some testsCMakeContent :=
  ⟨rfl, _, rfl,
    (claim_C6 none none demoConfig demoConfig FS.empty FS.empty _ _
      rfl rfl rfl rfl).1⟩

/-! ### Reaching the library loop from an empty filesystem -/

/-- The filesystem after `main` has created the root, written the root
manifest and the placeholder sources of the executables (all from an empty
start). -/
def startFS (cfg : Config) : FS :=
  writeExeSources (computeRoot cfg) cfg.executables
    (FS.writeFile
      ⟨computeRoot cfg :: (Path.strictPrefixes (computeRoot cfg) ++ FS.empty.dirs),
        FS.empty.files⟩
      (computeRoot cfg ++ ["CMakeLists.txt"]) (create_main_cmakelists cfg))

lemma startFS_run (cli : Option String) (cfg : Config)
    (hlibsrc : ∀ e ∈ cfg.executables, "lib" ∉ e.sources) :
    runMain cli cfg FS.empty
      = (runLibs (computeRoot cfg) cfg.libraries
          ⟨(computeRoot cfg ++ ["lib"]) :: (startFS cfg).dirs, (startFS cfg).files⟩)
        >>= runTestsStep (computeRoot cfg) cfg ∧
    LibShape (computeRoot cfg)
      ("CMakeLists.txt" :: cfg.executables.flatMap Executable.sources) []
      ⟨(computeRoot cfg ++ ["lib"]) :: (startFS cfg).dirs, (startFS cfg).files⟩ := by
  have hd3 : (startFS cfg).dirs
      = computeRoot cfg :: Path.strictPrefixes (computeRoot cfg) := by
    rw [startFS, writeExeSources_dirs]
    show computeRoot cfg :: (Path.strictPrefixes (computeRoot cfg) ++ FS.empty.dirs) = _
    rw [FS.empty, List.append_nil]
  have hf3 : ∀ x ∈ (startFS cfg).files,
      x.1 = computeRoot cfg ++ ["CMakeLists.txt"] ∨
        ∃ exe ∈ cfg.executables, ∃ s ∈ exe.sources, x.1 = computeRoot cfg ++ [s] := by
    intro x hx
    rcases writeExeSources_files_sub _ _ _ x hx with h1 | h1
    · rcases List.mem_cons.mp h1 with h2 | h2
      · exact Or.inl (by rw [h2])
      · exact absurd h2 (List.not_mem_nil x)
    · exact Or.inr h1
  constructor
  · rw [runMain_unfold]
    have h0 : FS.empty.pathExists (computeRoot cfg) = false := rfl
    rw [h0]
    simp only [Bool.false_eq_true, if_false]
    have hlib : (startFS cfg).pathExists (computeRoot cfg ++ ["lib"]) = false := by
      rw [pathExists_false_iff]
      constructor
      · rw [hd3]
        intro hd
        rcases List.mem_cons.mp hd with h1 | h1
        · simp at h1
        · have h5 := strictPrefixes_length_lt h1
          simp only [List.length_append, List.length_cons, List.length_nil] at h5
          omega
      · intro e he hep
        rcases hf3 e he with h1 | ⟨exe, hexe, s, hs, h1⟩
        · rw [hep] at h1
          simp at h1
        · rw [hep] at h1
          simp only [List.append_right_inj, List.cons.injEq, and_true] at h1
          rw [← h1] at hs
          exact hlibsrc exe hexe hs
    rw [show (writeExeSources (computeRoot cfg) cfg.executables
        (FS.writeFile
          ⟨computeRoot cfg :: (Path.strictPrefixes (computeRoot cfg) ++ FS.empty.dirs),
            FS.empty.files⟩
          (computeRoot cfg ++ ["CMakeLists.txt"]) (create_main_cmakelists cfg)))
        = startFS cfg from rfl]
    rw [hlib]
    simp only [Bool.false_eq_true, if_false]
  · constructor
    · intro d hd
      rcases List.mem_cons.mp hd with h1 | h1
      · exact Or.inr (Or.inr (Or.inl h1))
      · rw [hd3] at h1
        rcases List.mem_cons.mp h1 with h2 | h2
        · exact Or.inr (Or.inl h2)
        · exact Or.inl (strictPrefixes_length_lt h2)
    · intro e he
      rcases hf3 e he with h1 | ⟨exe, hexe, s, hs, h1⟩
      · exact Or.inl ⟨"CMakeLists.txt", List.mem_cons_self _ _, h1⟩
      · refine Or.inl ⟨s, List.mem_cons_of_mem _ ?_, h1⟩
        rw [List.mem_flatMap]
        exact ⟨exe, hexe, hs⟩

/-- C10 (amended): under source-name hygiene, (a) when the library list
repeats a name, the run fails with the already-exists error while creating
the second duplicate's directory, after the root manifest, all executable
sources, and the files of all earlier libraries are on disk; (b) when all library
names are distinct, no directory-creation error occurs: the run succeeds. -/
theorem claim_C10 (cli : Option String) (cfg : Config) (hyg : Hygiene cfg) :
    (∀ (pre mid post : List Library) (lib dup : Library),
      cfg.libraries = (pre ++ lib :: mid) ++ dup :: post →
      dup.name = lib.name →
      ((pre ++ lib :: mid).map Library.name).Nodup →
      ∃ fsf, runMain cli cfg FS.empty
          = .error (.mkdirExists (computeRoot cfg ++ ["lib", dup.name]), fsf) ∧
        (fsf.read (computeRoot cfg ++ ["CMakeLists.txt"])).isSome = true ∧
        (∀ exe ∈ cfg.executables, ∀ s ∈ exe.sources,
          (fsf.read (computeRoot cfg ++ [s])).isSome = true) ∧
        (∀ lb ∈ pre ++ lib :: mid,
          (fsf.read (computeRoot cfg ++ ["lib", lb.name] ++ ["CMakeLists.txt"])).isSome
            = true ∧
          (∀ s ∈ lb.sources,
            (fsf.read (computeRoot cfg ++ ["lib", lb.name] ++ [s])).isSome = true) ∧
          (∀ hh ∈ lb.headers,
            (fsf.read
              (computeRoot cfg ++ ["lib", lb.name] ++ ["include", hh])).isSome = true))) ∧
    ((cfg.libraries.map Library.name).Nodup →
      ∃ fs', runMain cli cfg FS.empty = .ok fs') := by
  constructor
  · intro pre mid post lib dup hsplit hname hnd2
    obtain ⟨hrun_eq, hshape⟩ := startFS_run cli cfg (fun e he => (hyg.1 e he).1)
    have hincl1 : ∀ l ∈ pre ++ lib :: mid, "include" ∉ l.sources := by
      intro l hl
      apply hyg.2
      rw [hsplit]
      exact List.mem_append_left _ hl
    obtain ⟨fs5, hok5, hs5⟩ := runLibs_ok_of_shape (pre ++ lib :: mid) [] _ _ hshape hnd2
      (fun l _ => List.not_mem_nil l.name) hincl1
    have hdirmem : computeRoot cfg ++ ["lib", lib.name] ∈ fs5.dirs := by
      rw [runLibs_append] at hok5
      obtain ⟨m1, hpre, hrest⟩ := except_bind_ok_inv hok5
      rw [runLibs_cons] at hrest
      obtain ⟨m2, hl, hmid⟩ := except_bind_ok_inv hrest
      apply (runLibs_ok_mono mid hmid).1
      rw [runLib_ok_dirs hl]
      exact List.mem_cons_of_mem _ (List.mem_cons_self _ _)
    have hex : fs5.pathExists (computeRoot cfg ++ ["lib", dup.name]) = true := by
      rw [pathExists_iff, hname]
      exact Or.inl hdirmem
    have herr : runLib (computeRoot cfg) fs5 dup
        = .error (.mkdirExists (computeRoot cfg ++ ["lib", dup.name]), fs5) := by
      rw [runLib_unfold, if_pos hex]
    refine ⟨fs5, ?_, ?_, ?_, ?_⟩
    · rw [hrun_eq, hsplit, runLibs_append, hok5, except_bind_ok, runLibs_cons, herr,
        except_bind_error, except_bind_error]
    · apply read_isSome_of_files_subset (runLibs_ok_mono _ hok5).2
      show ((startFS cfg).read (computeRoot cfg ++ ["CMakeLists.txt"])).isSome = true
      rw [startFS]
      apply read_isSome_of_files_subset (writeExeSources_files_mono _ _ _)
      rw [read_writeFile_self]
      rfl
    · intro exe hexe s hs
      apply read_isSome_of_files_subset (runLibs_ok_mono _ hok5).2
      show ((startFS cfg).read (computeRoot cfg ++ [s])).isSome = true
      rw [startFS]
      exact writeExeSources_read_isSome _ _ _ exe hexe s hs
    · exact runLibs_ok_lib_reads _ hok5
  · intro hnd
    exact runMain_ok_of_hygiene cli cfg hnd hyg

/-- A configuration with two libraries sharing one name. -/
def cfgDup : Config :=
  { projectName := "p", cStandard := "11", cppStandard := "17"
  , libraries := [{ name := "a", sources := ["a.c"], headers := ["a.h"] },
                  { name := "a", sources := ["b.c"], headers := [] }]
  , executables := [] }

theorem claim_C10_witness :
    Hygiene cfgDup ∧
    ∃ fsf, runMain none cfgDup FS.empty
      = .error (.mkdirExists (computeRoot cfgDup ++ ["lib", "a"]), fsf) := by
  refine ⟨⟨by decide, by decide⟩, ?_⟩
  obtain ⟨fsf, herr, _⟩ := (claim_C10 none cfgDup ⟨by decide, by decide⟩).1
    [] [] [] { name := "a", sources := ["a.c"], headers := ["a.h"] }
    { name := "a", sources := ["b.c"], headers := [] } rfl rfl (by decide)
  exact ⟨fsf, herr⟩

/-- A configuration with distinct library names whose run nevertheless
fails inside the per-library loop: the library lists a source file named
`include`, so the file is written where the loop then calls `mkdir`. -/
def cfgBad : Config :=
  { projectName := "p", cStandard := "11", cppStandard := "17"
  , libraries := [{ name := "a", sources := ["include"], headers := [] }]
  , executables := [] }

theorem claim_C10_counterexample :
    (cfgBad.libraries.map Library.name).Nodup ∧
    FS.pathExists FS.empty (computeRoot cfgBad) = false ∧
    ∃ fsf, runMain none cfgBad FS.empty
      = .error (.mkdirExists (computeRoot cfgBad ++ ["lib", "a"] ++ ["include"]), fsf) :=
  ⟨by decide, rfl, _, rfl⟩

end CreateProject
